import Mathlib

/-!
Verification of the conf-reader extraction/matching/acquisition core.

This file gives a shallow embedding, in Lean 4, of the parts of the
repository the claims speak about:

* `src/extractors/json_utils.py`  — `sanitize_json_string`,
  `extract_json_safely`, `validate_paper_data`, together with a faithful
  model of Python's strict `json.loads` and of the concrete regular
  expressions used by the source (each regex is embedded as a direct
  character-scанning function implementing exactly that regex's
  left-to-right, non-overlapping `re.sub`/`re.search` semantics);
* `src/storage/pdf_matcher.py`   — `PDFMatcher` including a model of
  CPython's `difflib.SequenceMatcher.ratio` (chain table, best-block
  selection, the four extension loops, recursive matching-block total,
  autojunk's popular-element suppression; `isjunk=None` so the b-junk set
  is empty);
* `src/utils/arxiv_downloader.py` and `src/utils/download_service.py` —
  the download workflow with the filesystem modelled as a partial map
  from paths to file sizes and network/extraction collaborators modelled
  as explicit oracle inputs, plus an event trace recording the side
  effects performed (search / sleep / download / store updates);
* `src/extractors/image_extractor.py` — the two-attempt extraction
  protocol, with the Ollama client modelled as oracles and the list of
  `analyze_image` invocations (tagged by the `use_simple` flag) returned
  as an explicit trace.

Floats are modelled as rationals (`ℚ`); Python machine floats only carry
similarity ratios of tiny integers here, far from any rounding boundary
the spec mentions.  Python `str.lower` / `isalnum` / whitespace sets are
modelled on their ASCII behaviour, which covers every string the claims
and the source's own data (file stems, titles) exercise.
-/

namespace ConfReader

/-! ## Python-flavoured character and string helpers -/

/-- The four whitespace characters JSON itself skips (CPython
`json.decoder.WHITESPACE` is the regex `[ \t\n\r]*`). -/
def isJsonWs (c : Char) : Bool :=
  c = ' ' || c = '\t' || c = '\n' || c = '\r'

/-- Characters Python's `str.strip()` / `str.split()` treat as whitespace
(ASCII fragment plus the two Latin-1 space characters; CPython uses
`str.isspace`). -/
def pyIsSpace (c : Char) : Bool :=
  c = ' ' || c = '\t' || c = '\n' || c = '\r' || c = '\x0b' || c = '\x0c'
    || c = '\x1c' || c = '\x1d' || c = '\x1e' || c = '\x1f'
    || c = '\x85' || c = '\xa0'

/-- Characters matched by `\s` in a Python 3 regex (ASCII fragment of the
Unicode whitespace class; identical to `pyIsSpace` on the inputs that
occur here). -/
def isReWs (c : Char) : Bool := pyIsSpace c

/-- Word characters for the `\b` boundary of a Python regex (`[A-Za-z0-9_]`,
ASCII fragment). -/
def isWordChar (c : Char) : Bool :=
  ('a' ≤ c && c ≤ 'z') || ('A' ≤ c && c ≤ 'Z') || ('0' ≤ c && c ≤ '9') || c = '_'

/-- Python `str.strip()` on a character list. -/
def pyStripL (cs : List Char) : List Char :=
  ((cs.dropWhile pyIsSpace).reverse.dropWhile pyIsSpace).reverse

/-- Python `str.strip()`. -/
def pyStrip (s : String) : String := ⟨pyStripL s.data⟩

/-- Python `str.split()` with no argument: split on runs of whitespace,
discarding empty fields. -/
def pySplitL (cs : List Char) : List (List Char) :=
  go cs.length cs
where
  go : Nat → List Char → List (List Char)
    | 0, _ => []
    | _, [] => []
    | fuel+1, cs =>
      let cs' := cs.dropWhile pyIsSpace
      match cs'.span (fun c => !(pyIsSpace c)) with
      | (word, rest) =>
        if word.isEmpty then [] else word :: go fuel rest

/-- Python `str.split()` returning strings. -/
def pySplit (s : String) : List String :=
  (pySplitL s.data).map (fun l => ⟨l⟩)

/-- Python `str.lower()` (ASCII fragment, via `Char.toLower`). -/
def pyLower (s : String) : String := ⟨s.data.map Char.toLower⟩

/-! ## A model of Python's `json.loads`

Strict-mode `json.loads` (all defaults): double-quoted strings only,
unescaped control characters below U+0020 are an error inside strings,
`NaN`/`Infinity`/`-Infinity` accepted, numbers split into ints and
floats, duplicate object keys resolved last-wins by the `dict`, trailing
input after the value is an error.  The parser below is fueled so that
every definition reduces inside the kernel; `jsonLoads` hands it
`length + 1` fuel, which is plenty because every recursive call consumes
at least one character. -/

/-- Python values as produced by `json.loads` (and, for `validate_paper_data`,
as handed around afterwards).  `float` is modelled as an exact rational. -/
inductive Json where
  | null : Json
  | bool (b : Bool) : Json
  | int (n : Int) : Json
  | float (q : ℚ) : Json
  | str (s : String) : Json
  | arr (elems : List Json) : Json
  | obj (kvs : List (String × Json)) : Json
  | nan : Json
  | infinity : Json
  | negInfinity : Json

/-- Hex digit value, `none` if not a hex digit. -/
def hexVal (c : Char) : Option Nat :=
  if '0' ≤ c ∧ c ≤ '9' then some (c.toNat - '0'.toNat)
  else if 'a' ≤ c ∧ c ≤ 'f' then some (c.toNat - 'a'.toNat + 10)
  else if 'A' ≤ c ∧ c ≤ 'F' then some (c.toNat - 'A'.toNat + 10)
  else none

/-- Decimal digit test. -/
def isDigit (c : Char) : Bool := '0' ≤ c && c ≤ '9'

/-- Make a `Char` from a code point, mapping invalid scalar values (lone
surrogates, which Python strings can hold but Lean `Char` cannot) to
U+FFFD. -/
def charOfNat (n : Nat) : Char :=
  if n.isValidChar then Char.ofNat n else '�'

/-- Parse the four hex digits of a `\uXXXX` escape. -/
def parse4Hex : List Char → Option (Nat × List Char)
  | a :: b :: c :: d :: rest =>
    match hexVal a, hexVal b, hexVal c, hexVal d with
    | some x, some y, some z, some w => some (((x * 16 + y) * 16 + z) * 16 + w, rest)
    | _, _, _, _ => none
  | _ => none

/-- Body of a JSON string after the opening quote, per CPython
`py_scanstring` with `strict=True`: a raw control character below U+0020
is an error; `\uXXXX` escapes combine surrogate pairs. -/
def scanString : Nat → List Char → Option (List Char × List Char)
  | 0, _ => none
  | _, [] => none
  | fuel+1, c :: rest =>
    if c = '"' then some ([], rest)
    else if c = '\\' then
      match rest with
      | [] => none
      | e :: rest' =>
        let simple : Option Char :=
          if e = '"' then some '"'
          else if e = '\\' then some '\\'
          else if e = '/' then some '/'
          else if e = 'b' then some '\x08'
          else if e = 'f' then some '\x0c'
          else if e = 'n' then some '\n'
          else if e = 'r' then some '\r'
          else if e = 't' then some '\t'
          else none
        match simple with
        | some d =>
          match scanString fuel rest' with
          | some (tail, rem) => some (d :: tail, rem)
          | none => none
        | none =>
          if e = 'u' then
            match parse4Hex rest' with
            | none => none
            | some (n, rest2) =>
              -- surrogate-pair combination as in CPython
              if 0xd800 ≤ n ∧ n ≤ 0xdbff then
                match rest2 with
                | '\\' :: 'u' :: rest3 =>
                  match parse4Hex rest3 with
                  | some (m, rest4) =>
                    if 0xdc00 ≤ m ∧ m ≤ 0xdfff then
                      let cp := 0x10000 + (n - 0xd800) * 0x400 + (m - 0xdc00)
                      match scanString fuel rest4 with
                      | some (tail, rem) => some (charOfNat cp :: tail, rem)
                      | none => none
                    else
                      match scanString fuel rest2 with
                      | some (tail, rem) => some (charOfNat n :: tail, rem)
                      | none => none
                  | none =>
                    match scanString fuel rest2 with
                    | some (tail, rem) => some (charOfNat n :: tail, rem)
                    | none => none
                | _ =>
                  match scanString fuel rest2 with
                  | some (tail, rem) => some (charOfNat n :: tail, rem)
                  | none => none
              else
                match scanString fuel rest2 with
                | some (tail, rem) => some (charOfNat n :: tail, rem)
                | none => none
          else none
    else if c.toNat < 0x20 then none  -- strict mode: invalid control character
    else
      match scanString fuel rest with
      | some (tail, rem) => some (c :: tail, rem)
      | none => none

/-- Digits to their value. -/
def digitsVal (ds : List Char) : Nat :=
  ds.foldl (fun acc c => acc * 10 + (c.toNat - '0'.toNat)) 0

/-- Parse a JSON number per CPython's `NUMBER_RE`
`(-?(?:0|[1-9]\d*))(\.\d+)?([eE][-+]?\d+)?`; a fraction or exponent part
makes it a float. -/
def scanNumber (cs : List Char) : Option (Json × List Char) :=
  let (neg, cs1) := match cs with
    | '-' :: t => (true, t)
    | t => (false, t)
  match cs1 with
  | [] => none
  | d :: _ =>
    if !isDigit d then none
    else
      let (intDigits, cs2) :=
        if d = '0' then ([d], cs1.tail)
        else cs1.span isDigit
      let intVal : Int := (if neg then -1 else 1) * (digitsVal intDigits : Int)
      -- optional fraction
      let (fracDigits, cs3) := match cs2 with
        | '.' :: t =>
          let (ds, r) := t.span isDigit
          if ds.isEmpty then ([], cs2) else (ds, r)
        | _ => ([], cs2)
      -- optional exponent
      let (expSign, expDigits, cs4) := match cs3 with
        | e :: t =>
          if e = 'e' ∨ e = 'E' then
            match t with
            | '+' :: t' =>
              let (ds, r) := t'.span isDigit
              if ds.isEmpty then (1, [], cs3) else ((1 : Int), ds, r)
            | '-' :: t' =>
              let (ds, r) := t'.span isDigit
              if ds.isEmpty then (1, [], cs3) else ((-1 : Int), ds, r)
            | _ =>
              let (ds, r) := t.span isDigit
              if ds.isEmpty then (1, [], cs3) else ((1 : Int), ds, r)
          else (1, [], cs3)
        | [] => (1, [], cs3)
      if fracDigits.isEmpty ∧ expDigits.isEmpty then
        some (Json.int intVal, cs2)
      else
        let mantissa : ℚ :=
          (intVal : ℚ) +
            (if neg then -1 else 1) * (digitsVal fracDigits : ℚ) / ((10 : ℚ) ^ fracDigits.length)
        let expo : Int := expSign * (digitsVal expDigits : Int)
        some (Json.float (mantissa * (10 : ℚ) ^ expo), cs4)

/-- List-prefix test for literal tokens. -/
def startsWithL (pat : List Char) (cs : List Char) : Bool :=
  pat.isPrefixOf cs

mutual
/-- Parse one JSON value; leading whitespace must already be consumed. -/
def parseValue : Nat → List Char → Option (Json × List Char)
  | 0, _ => none
  | _, [] => none
  | fuel+1, c :: rest =>
    if c = '{' then parseObjBody fuel (rest.dropWhile isJsonWs) true
    else if c = '[' then parseArrBody fuel (rest.dropWhile isJsonWs) true
    else if c = '"' then
      match scanString (rest.length + 1) rest with
      | some (sChars, rem) => some (Json.str ⟨sChars⟩, rem)
      | none => none
    else if startsWithL ['t','r','u','e'] (c :: rest) then
      some (Json.bool true, (c :: rest).drop 4)
    else if startsWithL ['f','a','l','s','e'] (c :: rest) then
      some (Json.bool false, (c :: rest).drop 5)
    else if startsWithL ['n','u','l','l'] (c :: rest) then
      some (Json.null, (c :: rest).drop 4)
    else if startsWithL ['N','a','N'] (c :: rest) then
      some (Json.nan, (c :: rest).drop 3)
    else if startsWithL ['I','n','f','i','n','i','t','y'] (c :: rest) then
      some (Json.infinity, (c :: rest).drop 8)
    else if startsWithL ['-','I','n','f','i','n','i','t','y'] (c :: rest) then
      some (Json.negInfinity, (c :: rest).drop 9)
    else scanNumber (c :: rest)

/-- Object body after `{` and whitespace; `first = true` until a pair has
been parsed. -/
def parseObjBody : Nat → List Char → Bool → Option (Json × List Char)
  | 0, _, _ => none
  | _, [], _ => none
  | fuel+1, c :: rest, first =>
    if c = '}' ∧ first then some (Json.obj [], rest)
    else if c = '"' then
      match scanString (rest.length + 1) rest with
      | none => none
      | some (keyChars, rem1) =>
        match rem1.dropWhile isJsonWs with
        | ':' :: rem2 =>
          match parseValue fuel (rem2.dropWhile isJsonWs) with
          | none => none
          | some (v, rem3) =>
            match rem3.dropWhile isJsonWs with
            | ',' :: rem4 =>
              match parseObjBody fuel (rem4.dropWhile isJsonWs) false with
              | some (Json.obj kvs, rem5) => some (Json.obj ((⟨keyChars⟩, v) :: kvs), rem5)
              | _ => none
            | '}' :: rem4 => some (Json.obj [(⟨keyChars⟩, v)], rem4)
            | _ => none
        | _ => none
    else none

/-- Array body after `[` and whitespace. -/
def parseArrBody : Nat → List Char → Bool → Option (Json × List Char)
  | 0, _, _ => none
  | _, [], _ => none
  | fuel+1, c :: rest, first =>
    if c = ']' ∧ first then some (Json.arr [], rest)
    else
      match parseValue fuel (c :: rest) with
      | none => none
      | some (v, rem1) =>
        match rem1.dropWhile isJsonWs with
        | ',' :: rem2 =>
          match parseArrBody fuel (rem2.dropWhile isJsonWs) false with
          | some (Json.arr vs, rem3) => some (Json.arr (v :: vs), rem3)
          | _ => none
        | ']' :: rem2 => some (Json.arr [v], rem2)
        | _ => none
end

/-- Python `json.loads`: skip whitespace, parse one value, skip
whitespace, require end of input; any `JSONDecodeError` is `none`. -/
def jsonLoads (s : String) : Option Json :=
  match parseValue (s.data.length + 1) (s.data.dropWhile isJsonWs) with
  | some (v, rest) => if rest.dropWhile isJsonWs = [] then some v else none
  | none => none

/-! ## The concrete regular expressions of `json_utils.py`

Each of the following functions embeds one `re.sub`/`re.search` call of
the source with that regex's left-to-right, non-overlapping semantics.
They are fueled (one unit per character examined) so that they reduce in
the kernel; the wrappers pass `length + 1` fuel, which always suffices
because every step consumes at least one input character. -/

/-- Case-insensitive literal prefix test. -/
def startsWithCI (pat : List Char) (cs : List Char) : Bool :=
  (pat.map Char.toLower).isPrefixOf (cs.map Char.toLower)

/-- One `re.sub(pat ++ "\s*", '', text)` pass for a literal (case-insensitive
when `ci`) pattern: drop every occurrence of the literal together with the
greedy whitespace run following it. -/
def removeLitWs (ci : Bool) (pat : List Char) : Nat → List Char → List Char
  | 0, cs => cs
  | _, [] => []
  | fuel+1, c :: rest =>
    if (if ci then startsWithCI pat (c :: rest) else startsWithL pat (c :: rest)) then
      removeLitWs ci pat fuel (((c :: rest).drop pat.length).dropWhile isReWs)
    else
      c :: removeLitWs ci pat fuel rest

/-- The `re.search(r'\{.*\}', text, re.DOTALL)` span: from the first `\x7b`
to the last `\x7d` after it, `none` when the regex has no match. -/
def braceSpanL (cs : List Char) : Option (List Char) :=
  let t1 := cs.dropWhile (fun c => c ≠ '{')
  if t1.isEmpty then none
  else
    let r := t1.reverse.dropWhile (fun c => c ≠ '}')
    if r.isEmpty then none else some r.reverse

/-- The `re.sub(r"'([^']*)':", r'"\1":', text)` pass: a single-quoted span
immediately followed by a colon gets double quotes. -/
def fixQuoteKeys : Nat → List Char → List Char
  | 0, cs => cs
  | _, [] => []
  | fuel+1, c :: rest =>
    if c = '\'' then
      match rest.span (fun d => d ≠ '\'') with
      | (mid, r) =>
        match r with
        | '\'' :: ':' :: tail => '"' :: (mid ++ '"' :: ':' :: fixQuoteKeys fuel tail)
        | _ => c :: fixQuoteKeys fuel rest
    else c :: fixQuoteKeys fuel rest

/-- The `re.sub(r',(\s*[}\]])', r'\1', text)` pass: drop a comma standing
before (whitespace and) a closing brace or bracket. -/
def fixTrailingCommas : Nat → List Char → List Char
  | 0, cs => cs
  | _, [] => []
  | fuel+1, c :: rest =>
    if c = ',' then
      match rest.span isReWs with
      | (ws, r) =>
        match r with
        | d :: tail =>
          if d = '}' ∨ d = ']' then ws ++ d :: fixTrailingCommas fuel tail
          else c :: fixTrailingCommas fuel rest
        | [] => c :: fixTrailingCommas fuel rest
    else c :: fixTrailingCommas fuel rest

/-- One `re.sub(r'\bWORD\b', rep, text)` pass for a literal word; `prev` is
the original character before the current position, for the left `\b`. -/
def wordReplace (pat rep : List Char) : Nat → Option Char → List Char → List Char
  | 0, _, cs => cs
  | _, _, [] => []
  | fuel+1, prev, c :: rest =>
    let leftB : Bool := match prev with
      | none => true
      | some p => !isWordChar p
    let afterOk : Bool := match ((c :: rest).drop pat.length).head? with
      | none => true
      | some a => !isWordChar a
    if startsWithL pat (c :: rest) && leftB && afterOk then
      rep ++ wordReplace pat rep fuel pat.getLast? ((c :: rest).drop pat.length)
    else
      c :: wordReplace pat rep fuel (some c) rest

/-- Step 5 of `sanitize_json_string`: keep a character iff its code point is
at least 32 or it is `\n`, `\r` or `\t`. -/
def removeCtrl (cs : List Char) : List Char :=
  cs.filter (fun c => 32 ≤ c.toNat || c = '\n' || c = '\r' || c = '\t')

/-- Model of `sanitize_json_string` (src/extractors/json_utils.py, lines
7-47), applying the source's passes in order: strip ```` ```json ````
fences, strip ```` ``` ```` fences, cut to the outermost brace span,
double-quote single-quoted keys, drop trailing commas, rewrite the
literals `None`/`True`/`False`, drop control characters, strip. -/
def sanitize_json_string (s : String) : String :=
  let t1 := removeLitWs true ['`','`','`','j','s','o','n'] (s.data.length + 1) s.data
  let t2 := removeLitWs false ['`','`','`'] (t1.length + 1) t1
  let t3 := match braceSpanL t2 with
    | some m => m
    | none => t2
  let t4 := fixQuoteKeys (t3.length + 1) t3
  let t5 := fixTrailingCommas (t4.length + 1) t4
  let t6 := wordReplace ['N','o','n','e'] ['n','u','l','l'] (t5.length + 1) none t5
  let t7 := wordReplace ['T','r','u','e'] ['t','r','u','e'] (t6.length + 1) none t6
  let t8 := wordReplace ['F','a','l','s','e'] ['f','a','l','s','e'] (t7.length + 1) none t7
  ⟨pyStripL (removeCtrl t8)⟩

/-- Iterated part of the strategy-3 regex
`\x7b[^{}]*(?:\x7b[^{}]*\x7d[^{}]*)*\x7d`: the input is positioned after
the opening brace and its non-brace run; the match is deterministic since
a `[^{}]` run can never backtrack into a brace. -/
def nbIter : Nat → List Char → Option (List Char)
  | 0, _ => none
  | _, [] => none
  | fuel+1, c :: rest =>
    if c = '}' then some ['}']
    else if c = '{' then
      match rest.span (fun d => d ≠ '{' && d ≠ '}') with
      | (b, r) =>
        match r with
        | '}' :: r2 =>
          match r2.span (fun d => d ≠ '{' && d ≠ '}') with
          | (c2, r3) =>
            match nbIter fuel r3 with
            | some tail => some ('{' :: b ++ '}' :: c2 ++ tail)
            | none => none
        | _ => none
    else none

/-- Attempt the strategy-3 regex at the current position (which must hold
an opening brace). -/
def nbTryAt (cs : List Char) : Option (List Char) :=
  match cs with
  | '{' :: rest =>
    match rest.span (fun d => d ≠ '{' && d ≠ '}') with
    | (a, r) =>
      match nbIter (r.length + 1) r with
      | some tail => some ('{' :: a ++ tail)
      | none => none
  | _ => none

/-- Leftmost match of the strategy-3 regex (`re.search` scans start
positions left to right; a match must begin with an opening brace). -/
def findNested : Nat → List Char → Option (List Char)
  | 0, _ => none
  | _, [] => none
  | fuel+1, c :: rest =>
    match nbTryAt (c :: rest) with
    | some m => some m
    | none => findNested fuel rest

/-- The strategy-3 extraction
`re.search(r'\{[^{}]*(?:\{[^{}]*\}[^{}]*)*\}', text, re.DOTALL)`. -/
def findNestedBraces (s : String) : Option String :=
  (findNested (s.data.length + 1) s.data).map (fun l => ⟨l⟩)

/-- The strategy-4 rewrite
`re.sub(r':\s*"([^"]*\n[^"]*)"', lambda m: ': "' + group1-with-newlines-as-spaces + '"', text)`:
a colon, whitespace, then a double-quoted span containing a literal
newline is re-emitted with a single space after the colon and the
newlines replaced by spaces. -/
def fixNewlinesL : Nat → List Char → List Char
  | 0, cs => cs
  | _, [] => []
  | fuel+1, c :: rest =>
    if c = ':' then
      match rest.span isReWs with
      | (_, r1) =>
        match r1 with
        | '"' :: r2 =>
          match r2.span (fun d => d ≠ '"') with
          | (content, r3) =>
            match r3 with
            | '"' :: tail =>
              if content.contains '\n' then
                ':' :: ' ' :: '"' ::
                  (content.map (fun d => if d = '\n' then ' ' else d) ++
                    '"' :: fixNewlinesL fuel tail)
              else c :: fixNewlinesL fuel rest
            | _ => c :: fixNewlinesL fuel rest
        | _ => c :: fixNewlinesL fuel rest
    else c :: fixNewlinesL fuel rest

/-- Strategy 4's repaired text. -/
def fixNewlines (s : String) : String := ⟨fixNewlinesL (s.data.length + 1) s.data⟩

/-! ## `extract_json_safely` and its four strategies -/

/-- Strategy 1: parse the raw text as-is. -/
def strategy1 (s : String) : Option Json := jsonLoads s

/-- Strategy 2: sanitize, then parse. -/
def strategy2 (s : String) : Option Json := jsonLoads (sanitize_json_string s)

/-- Strategy 3: parse the first balanced-brace (depth ≤ 2) substring; a
missing match or a parse error both yield nothing. -/
def strategy3 (s : String) : Option Json :=
  (findNestedBraces s).bind (fun m => jsonLoads m)

/-- Strategy 4: repair embedded newlines inside string values, then parse. -/
def strategy4 (s : String) : Option Json := jsonLoads (fixNewlines s)

/-- Model of `extract_json_safely` (src/extractors/json_utils.py, lines
50-92): the empty/whitespace guard, then the four strategies in source
order, each `except JSONDecodeError: pass` modelled by falling through on
`none`. -/
def extract_json_safely (s : String) : Option Json :=
  if pyStrip s = "" then none
  else
    match strategy1 s with
    | some v => some v
    | none =>
      match strategy2 s with
      | some v => some v
      | none =>
        match strategy3 s with
        | some v => some v
        | none => strategy4 s

/-! ## `validate_paper_data` -/

/-- Python truthiness of a parsed value. -/
def jsonTruthy : Json → Bool
  | .null => false
  | .bool b => b
  | .int n => n ≠ 0
  | .float q => q ≠ 0
  | .str s => s ≠ ""
  | .arr l => !l.isEmpty
  | .obj l => !l.isEmpty
  | .nan => true
  | .infinity => true
  | .negInfinity => true

/-- Python `dict.get` on the parsed object's pairs: duplicate keys resolve
last-wins, exactly as building a `dict` does. -/
def pyGet (kvs : List (String × Json)) (k : String) : Option Json :=
  (kvs.reverse.find? (fun p => p.1 = k)).map (fun p => p.2)

/-- Python `repr` of a float value (used only inside `str` of containers;
no claim exercises it on non-trivial floats, so the decimal rendering is
given only for integral values). -/
def floatRepr (q : ℚ) : String :=
  if q.den = 1 then toString q.num ++ ".0" else toString q.num ++ "/" ++ toString q.den

mutual
/-- Python `str()` of a parsed value. -/
def pyStr : Json → String
  | .null => "None"
  | .bool true => "True"
  | .bool false => "False"
  | .int n => toString n
  | .float q => floatRepr q
  | .str s => s
  | .arr l => "[" ++ ", ".intercalate (pyReprList l) ++ "]"
  | .obj l => "\x7b" ++ ", ".intercalate (pyReprKvs l) ++ "\x7d"
  | .nan => "nan"
  | .infinity => "inf"
  | .negInfinity => "-inf"

/-- Python `repr()` of a parsed value (strings get quotes). -/
def pyRepr : Json → String
  | .str s => "'" ++ s ++ "'"
  | j => pyStrAux j

/-- Helper so that `pyRepr` of a non-string delegates without recursion
through the same case. -/
def pyStrAux : Json → String
  | .null => "None"
  | .bool true => "True"
  | .bool false => "False"
  | .int n => toString n
  | .float q => floatRepr q
  | .str s => s
  | .arr l => "[" ++ ", ".intercalate (pyReprList l) ++ "]"
  | .obj l => "\x7b" ++ ", ".intercalate (pyReprKvs l) ++ "\x7d"
  | .nan => "nan"
  | .infinity => "inf"
  | .negInfinity => "-inf"

/-- `repr` of the elements of a list. -/
def pyReprList : List Json → List String
  | [] => []
  | j :: rest => pyRepr j :: pyReprList rest

/-- `repr` of the pairs of a dict. -/
def pyReprKvs : List (String × Json) → List String
  | [] => []
  | (k, v) :: rest => ("'" ++ k ++ "': " ++ pyRepr v) :: pyReprKvs rest
end

/-- The record `validate_paper_data` returns. -/
structure ValidatedPaper where
  title : String
  authors : List Json
  overview : Option String

/-- Model of `validate_paper_data` (src/extractors/json_utils.py, lines
95-119): `title` is `str(data.get('title', 'Untitled'))`; `authors` is the
value if it is a list, else `[]`, with falsy entries filtered out;
`overview` is the value if it is a string, else `None`, with the empty
string cleaned to `None`. -/
def validate_paper_data (kvs : List (String × Json)) : ValidatedPaper :=
  let title := match pyGet kvs "title" with
    | none => "Untitled"
    | some v => pyStr v
  let authors0 := match pyGet kvs "authors" with
    | some (.arr l) => l
    | _ => []
  let overview0 := match pyGet kvs "overview" with
    | some (.str s) => some s
    | _ => none
  let overview := if overview0 = some "" then none else overview0
  { title := title, authors := authors0.filter jsonTruthy, overview := overview }

/-! ## A model of CPython's `difflib.SequenceMatcher(None, a, b).ratio()`

`PDFMatcher._calculate_similarity` calls
`SequenceMatcher(None, str1.lower(), str2.lower()).ratio()`.  The model
below follows CPython's `difflib` with `isjunk=None`:

* `__chain_b` with `autojunk=True`: an element of `b` is *popular* when
  `len(b) >= 200` and it occurs more than `len(b)//100 + 1` times; popular
  elements are removed from `b2j` (so the main loop of
  `find_longest_match` never matches them) but the junk set `bjunk` stays
  empty, so the junk-extension loops never fire and the non-junk
  extension loops extend across every equal pair of characters.
* the `j2len` chain table becomes the recursive `chainLen`: the length of
  the run of non-popular equal pairs ending at `(i, j)` and clipped to
  `[alo, ·] × [blo, ·]`.
* the main loop keeps the first block (in `i`-then-`j` iteration order)
  whose chain length strictly exceeds the best so far.
* `get_matching_blocks`' queue recursion becomes `matchedTotF`, which
  returns the total size of all matching blocks (all `ratio` needs); it
  is fueled one unit per level, and each level splits the region strictly,
  so `len(a) + len(b) + 1` fuel always suffices.
* `ratio` is `2*M/T` as an exact rational, `1` when both are empty. -/

/-- Indexing into the character list (indices used by `difflib` are always
in range; the default is irrelevant). -/
def getC (l : List Char) (i : Nat) : Char := l.getD i ' '

/-- Guard of one `j2len` chain entry: position pair in the window, equal
characters, `j` not removed from `b2j` as popular. -/
def chainCond (a b : List Char) (pop : Char → Bool) (alo ahi blo bhi i j : Nat) : Bool :=
  decide (alo ≤ i) && decide (i < ahi) && decide (blo ≤ j) && decide (j < bhi)
    && (getC a i == getC b j) && !pop (getC b j)

/-- The `j2len` chain value at `(i, j)`. -/
def chainLen (a b : List Char) (pop : Char → Bool) (alo ahi blo bhi : Nat) :
    Nat → Nat → Nat
  | i+1, j+1 =>
    if chainCond a b pop alo ahi blo bhi (i+1) (j+1) then
      1 + chainLen a b pop alo ahi blo bhi i j
    else 0
  | i, j => if chainCond a b pop alo ahi blo bhi i j then 1 else 0

/-- One inner-loop step of `find_longest_match`'s main loop: strictly
better chains replace the best block. -/
def bestStep (a b : List Char) (pop : Char → Bool) (alo ahi blo bhi i : Nat)
    (st : Nat × Nat × Nat) (j : Nat) : Nat × Nat × Nat :=
  let k := chainLen a b pop alo ahi blo bhi i j
  if st.2.2 < k then (i + 1 - k, j + 1 - k, k) else st

/-- The main double loop of `find_longest_match`, starting from
`(alo, blo, 0)`. -/
def bestBlock (a b : List Char) (pop : Char → Bool) (alo ahi blo bhi : Nat) :
    Nat × Nat × Nat :=
  (List.range' alo (ahi - alo)).foldl
    (fun st i =>
      (List.range' blo (bhi - blo)).foldl (bestStep a b pop alo ahi blo bhi i) st)
    (alo, blo, 0)

/-- A backward extension loop of `find_longest_match` (`p` is the junk
polarity applied to the `b`-side character). -/
def extendB (a b : List Char) (p : Char → Bool) (alo blo : Nat) :
    Nat → Nat → Nat → Nat × Nat × Nat
  | i+1, j+1, k =>
    if decide (alo < i+1) && decide (blo < j+1) && p (getC b j) && (getC a i == getC b j) then
      extendB a b p alo blo i j (k+1)
    else (i+1, j+1, k)
  | i, j, k => (i, j, k)

/-- A forward extension loop of `find_longest_match`; fueled, and the
caller passes fuel `ahi + 1 ≥ ahi - (i + k)`, enough to reach the loop's
exit condition. -/
def extendF (a b : List Char) (p : Char → Bool) (ahi bhi i j : Nat) :
    Nat → Nat → Nat
  | 0, k => k
  | fuel+1, k =>
    if decide (i + k < ahi) && decide (j + k < bhi) && p (getC b (j + k))
        && (getC a (i + k) == getC b (j + k)) then
      extendF a b p ahi bhi i j fuel (k+1)
    else k

/-- `find_longest_match(alo, ahi, blo, bhi)`: main loop, then the two
non-junk extension loops, then the two junk extension loops. -/
def findLongestMatch (a b : List Char) (pop junk : Char → Bool)
    (alo ahi blo bhi : Nat) : Nat × Nat × Nat :=
  let st0 := bestBlock a b pop alo ahi blo bhi
  let st1 := extendB a b (fun c => !junk c) alo blo st0.1 st0.2.1 st0.2.2
  let k2 := extendF a b (fun c => !junk c) ahi bhi st1.1 st1.2.1 (ahi + 1) st1.2.2
  let st3 := extendB a b junk alo blo st1.1 st1.2.1 k2
  let k4 := extendF a b junk ahi bhi st3.1 st3.2.1 (ahi + 1) st3.2.2
  (st3.1, st3.2.1, k4)

/-- Total size of the matching blocks of a window
(`get_matching_blocks`' recursion, keeping only the sum of sizes). -/
def matchedTotF (a b : List Char) (pop junk : Char → Bool) :
    Nat → Nat → Nat → Nat → Nat → Nat
  | 0, _, _, _, _ => 0
  | fuel+1, alo, ahi, blo, bhi =>
    match findLongestMatch a b pop junk alo ahi blo bhi with
    | (i, j, k) =>
      if k = 0 then 0
      else
        k + (if alo < i ∧ blo < j then matchedTotF a b pop junk fuel alo i blo j else 0)
          + (if i + k < ahi ∧ j + k < bhi then matchedTotF a b pop junk fuel (i+k) ahi (j+k) bhi else 0)

/-- Autojunk's popular test (`__chain_b`): only active when
`len(b) >= 200`. -/
def popularB (b : List Char) (c : Char) : Bool :=
  decide (200 ≤ b.length) && decide (b.length / 100 + 1 < b.count c)

/-- Total matched size over the whole pair, with `isjunk=None` (empty
`bjunk`). -/
def matchedTotal (a b : List Char) : Nat :=
  matchedTotF a b (popularB b) (fun _ => false) (a.length + b.length + 1) 0 a.length 0 b.length

/-- `SequenceMatcher.ratio()` as an exact rational: `2*M/T`, and `1.0`
when both sequences are empty. -/
def ratioQ (a b : List Char) : ℚ :=
  let T := a.length + b.length
  if T = 0 then 1 else 2 * (matchedTotal a b : ℚ) / (T : ℚ)

/-- Model of `PDFMatcher._calculate_similarity` (src/storage/pdf_matcher.py,
lines 149-160): the `difflib` ratio of the two lowercased strings. -/
def calculate_similarity (str1 str2 : String) : ℚ :=
  ratioQ (pyLower str1).data (pyLower str2).data

/-! ## Data model (`src/core/models.py`) -/

/-- `Author` (pydantic model, just a name). -/
structure Author where
  name : String
  deriving DecidableEq, Repr

/-- `PaperMetadata`, restricted to the fields the verified components
read or write (timestamps and `version` are never touched by them). -/
structure PaperMetadata where
  paper_id : String
  title : String
  authors : List Author
  overview : Option String
  conference_name : Option String
  pdf_found : Bool
  pdf_path : Option String
  pdf_url : Option String
  source_files : List String
  deriving DecidableEq, Repr

/-- `SourceFile`, restricted to the path (the only field `PDFMatcher`
reads). -/
structure SourceFile where
  file_path : String
  deriving DecidableEq, Repr

/-- `pathlib.PurePath.stem` of a path string: the final component, with
its suffix removed when the last dot is neither leading nor trailing. -/
def pathStemL (cs : List Char) : List Char :=
  let name := (cs.reverse.takeWhile (fun c => c ≠ '/')).reverse
  match name.reverse.findIdx? (fun c => c = '.') with
  | none => name
  | some r =>
    let i := name.length - 1 - r
    if 0 < i ∧ i < name.length - 1 then name.take i else name

/-- String version of `pathStemL`. -/
def pathStem (s : String) : String := ⟨pathStemL s.data⟩

/-! ## `PDFMatcher` (src/storage/pdf_matcher.py) -/

/-- The stop-word list of `PDFMatcher._clean_string`. -/
def matcherStopWords : List String :=
  ["a", "an", "the", "and", "or", "but", "in", "on", "at", "to", "for"]

/-- Model of `PDFMatcher._clean_string`: lowercase, split on whitespace,
drop stop words, join with underscores, keep only alphanumerics and
underscores. -/
def clean_string (text : String) : String :=
  let words := (pySplit (pyLower text)).filter (fun w => !matcherStopWords.contains w)
  ⟨("_".intercalate words).data.filter (fun c => c.isAlphanum || c = '_')⟩

/-- Model of `PDFMatcher._generate_search_strings`: the cleaned title,
and—when there is a first author—`author_title` and `title_author`. -/
def generate_search_strings (paper : PaperMetadata) : List String :=
  let clean_title := clean_string paper.title
  match paper.authors with
  | [] => [clean_title]
  | a :: _ =>
    let first_author := clean_string a.name
    [clean_title, first_author ++ "_" ++ clean_title, clean_title ++ "_" ++ first_author]

/-- Model of `PDFMatcher.match_paper_to_pdf` (lines 27-65): track the best
(strictly better) score over every file × search-string pair, then accept
only when the best score reaches the threshold. -/
def match_paper_to_pdf (threshold : ℚ) (paper : PaperMetadata)
    (pdf_files : List SourceFile) : Option SourceFile :=
  if pdf_files.isEmpty then none
  else
    let search_strings := generate_search_strings paper
    let st := pdf_files.foldl
      (fun st pdf_file =>
        let pdf_name := pyLower (pathStem pdf_file.file_path)
        search_strings.foldl
          (fun st search_str =>
            let score := calculate_similarity search_str pdf_name
            if st.2 < score then (some pdf_file, score) else st)
          st)
      ((none : Option SourceFile), (0 : ℚ))
    if threshold ≤ st.2 then st.1 else none

/-- Model of `PDFMatcher.match_all_papers` (lines 67-96).  The source
iterates the candidate list, records each result in the `matches` dict,
and — on a match — mutates the candidate in place
(`paper.pdf_found = True; paper.pdf_path = str(...)`).  Mutation is made
explicit here: the first component is the `matches` association in
iteration order, the second the list of candidate objects as they stand
after the loop. -/
def match_all_papers (threshold : ℚ) (papers : List PaperMetadata)
    (pdf_files : List SourceFile) :
    List (String × Option SourceFile) × List PaperMetadata :=
  (papers.map (fun paper => (paper.paper_id, match_paper_to_pdf threshold paper pdf_files)),
   papers.map (fun paper =>
     match match_paper_to_pdf threshold paper pdf_files with
     | some f => { paper with pdf_found := true, pdf_path := some f.file_path }
     | none => paper))

/-! ## `ArxivDownloader` (src/utils/arxiv_downloader.py)

Network, XML and the filesystem are collaborators: the HTTP search
response is abstracted to the list of parsed feed entries (or an
exception flag), a download attempt to a `DlOutcome`, and the filesystem
to a partial map from path strings to file sizes.  An event trace records
the side effects performed. -/

/-- The stop-word set of `ArxivDownloader._calculate_similarity`. -/
def arxivStopWords : List String :=
  ["the", "a", "an", "and", "or", "but", "in", "on", "at", "to", "for", "of", "with", "by"]

/-- Model of `ArxivDownloader._calculate_similarity` (lines 161-176):
Jaccard overlap of the stop-word-filtered word sets of the two lowercased
titles; `0` when either set is empty. -/
def calculate_similarity_arxiv (title1 title2 : String) : ℚ :=
  let words1 := ((pySplit (pyLower title1)).dedup).filter (fun w => !arxivStopWords.contains w)
  let words2 := ((pySplit (pyLower title2)).dedup).filter (fun w => !arxivStopWords.contains w)
  if words1.isEmpty || words2.isEmpty then 0
  else
    let intersection := words1.filter (fun w => words2.contains w)
    let union := (words1 ++ words2).dedup
    (intersection.length : ℚ) / (union.length : ℚ)

/-- Model of `ArxivDownloader._clean_title` (lines 155-159):
`re.sub(r'[^\w\s-]', ' ', title)` then whitespace normalisation. -/
def clean_title (title : String) : String :=
  let t : List Char := title.data.map
    (fun c => if isWordChar c || pyIsSpace c || c = '-' then c else ' ')
  " ".intercalate (pySplit ⟨t⟩)

/-- Suffix after the first occurrence of `pat`, if any. -/
def afterFirst (pat : List Char) : Nat → List Char → Option (List Char)
  | 0, _ => none
  | _, [] => none
  | fuel+1, c :: rest =>
    if startsWithL pat (c :: rest) then some ((c :: rest).drop pat.length)
    else afterFirst pat fuel rest

/-- Python `s.split(pat)[-1]`: the suffix after the last (non-overlapping)
occurrence of `pat`, or all of `s` when `pat` does not occur. -/
def afterLast (pat : List Char) : Nat → List Char → List Char
  | 0, cs => cs
  | fuel+1, cs =>
    match afterFirst pat (cs.length + 1) cs with
    | some rest => afterLast pat fuel rest
    | none => cs

/-- Python `pat in s` for the model's purposes. -/
def containsSub (s pat : String) : Bool :=
  (afterFirst pat.data (s.data.length + 1) s.data).isSome

/-- `s.split('/abs/')[-1]` as used for arXiv ids. -/
def splitAbsLast (s : String) : String :=
  ⟨afterLast ['/','a','b','s','/'] (s.data.length + 1) s.data⟩

/-- One parsed `<entry>` of the Atom feed: the `<id>`/`<title>` texts when
present, and the author names. -/
structure ArxivEntry where
  idText : Option String
  titleText : Option String
  authorNames : List String

/-- The dict `search_paper` returns. -/
structure ArxivHit where
  arxiv_id : String
  title : String
  pdf_url : String
  authors : List String
  similarity : ℚ

/-- Model of `ArxivDownloader.search_paper` (lines 22-86): `exc` is true
when the HTTP GET / XML parse raises (every exception returns `None`);
otherwise the first feed entry is taken, its id and title must be
present, and the hit's similarity is the word-overlap similarity of the
lowercased query and hit titles. -/
def search_paper (exc : Bool) (entries : List ArxivEntry) (title : String) :
    Option ArxivHit :=
  if exc then none
  else
    match entries with
    | [] => none
    | entry :: _ =>
      match entry.idText, entry.titleText with
      | some idT, some titleT =>
        let arxiv_id := splitAbsLast idT
        let arxiv_title := pyStrip titleT
        some
          { arxiv_id := arxiv_id
            title := arxiv_title
            pdf_url := "https://arxiv.org/pdf/" ++ arxiv_id ++ ".pdf"
            authors := entry.authorNames
            similarity := calculate_similarity_arxiv (pyLower title) (pyLower arxiv_title) }
      | _, _ => none

/-- Outcome of one download attempt against the network: an exception
before anything was written, an exception after `partialSize` bytes were
streamed to the file, or a complete body of `size` bytes with the given
content type. -/
inductive DlOutcome where
  | netFail : DlOutcome
  | midFail (partialSize : Nat) : DlOutcome
  | ok (contentType : String) (size : Nat) : DlOutcome

/-- The filesystem, as a partial map from paths to file sizes. -/
def FS : Type := String → Option Nat

/-- Writing a file. -/
def fsSet (p : String) (sz : Nat) (fs : FS) : FS :=
  fun q => if q = p then some sz else fs q

/-- `Path.unlink` (no error when absent, matching the guarded
`if output_path.exists(): output_path.unlink()` and the unguarded unlinks,
which the source only reaches when the file exists). -/
def fsRemove (p : String) (fs : FS) : FS :=
  fun q => if q = p then none else fs q

/-- Side effects the workflow performs, in order. -/
inductive Event where
  | search (title : String) : Event
  | sleep : Event
  | download (url : String) : Event
  | updateOverview (paperId : String) (text : String) : Event
  | updatePdfInfo (paperId : String) (path : String) (url : Option String) : Event
  deriving DecidableEq, Repr

/-- Model of `ArxivDownloader.download_pdf` (lines 88-115): stream the
body to `output_path`; on any exception delete the file if it exists and
return `False`; if the written file is under 1000 bytes delete it and
return `False`; otherwise return `True`. -/
def download_pdf (dl : DlOutcome) (pdf_url output_path : String) (fs : FS) :
    Bool × FS × List Event :=
  match dl with
  | .netFail => (false, fsRemove output_path fs, [.download pdf_url])
  | .midFail partialSize =>
    (false, fsRemove output_path (fsSet output_path partialSize fs), [.download pdf_url])
  | .ok _ size =>
    let fs1 := fsSet output_path size fs
    if size < 1000 then (false, fsRemove output_path fs1, [.download pdf_url])
    else (true, fs1, [.download pdf_url])

/-- Two-decimal rendering of a similarity for the low-similarity message
(`{...:.2f}`; rounding here is round-half-up on the exact rational — the
claims never inspect the digits). -/
def fmt2 (q : ℚ) : String :=
  let h : Int := ⌊q * 100 + 1/2⌋
  let sign := if h < 0 then "-" else ""
  let n := h.natAbs
  let frac := n % 100
  sign ++ toString (n / 100) ++ "." ++ (if frac < 10 then "0" else "") ++ toString frac

/-- Model of `ArxivDownloader.search_and_download` (lines 117-135): search,
reject a missing or low-similarity hit without touching the network or
the filesystem, otherwise sleep the rate-limit delay and download. -/
def search_and_download (exc : Bool) (entries : List ArxivEntry) (dl : DlOutcome)
    (title : String) (output_path : String) (min_similarity : ℚ) (fs : FS) :
    (Bool × String × Option ArxivHit) × FS × List Event :=
  match search_paper exc entries title with
  | none => ((false, "Paper not found on arXiv", none), fs, [.search title])
  | some result =>
    if result.similarity < min_similarity then
      ((false, "Low similarity (" ++ fmt2 result.similarity ++ "): '" ++ result.title ++ "'",
        none), fs, [.search title])
    else
      let (success, fs1, ev) := download_pdf dl result.pdf_url output_path fs
      if success then
        ((true, "Downloaded from arXiv: " ++ result.arxiv_id, some result), fs1,
          .search title :: .sleep :: ev)
      else
        ((false, "Failed to download PDF", none), fs1, .search title :: .sleep :: ev)

/-- Model of `ArxivDownloader.download_from_url` (lines 137-153): rewrite
an arXiv abstract URL to the direct PDF URL, then download. -/
def download_from_url (dl : DlOutcome) (url output_path : String) (fs : FS) :
    (Bool × String) × FS × List Event :=
  let url' :=
    if containsSub url "arxiv.org/abs/" then
      "https://arxiv.org/pdf/" ++ pyStrip (splitAbsLast url) ++ ".pdf"
    else url
  let (success, fs1, ev) := download_pdf dl url' output_path fs
  if success then ((true, "Downloaded from URL: " ++ url'), fs1, ev)
  else ((false, "Failed to download PDF from URL"), fs1, ev)

/-! ## `DownloadService` (src/utils/download_service.py)

The database is a collaborator; its updates appear as trace events.  The
PDF-overview extractor (`PDFExtractor.extract_detailed_overview`, an
Ollama text-generation call over the downloaded file) is abstracted to
its `Optional[str]` result, supplied as the oracle `overview`. -/

/-- Model of `DownloadService._generate_pdf_filename` (lines 111-117). -/
def generate_pdf_filename (paper : PaperMetadata) : String :=
  let title_part := paper.title.data.take 50
  let title_part := title_part.map
    (fun c => if c.isAlphanum || c = ' ' || c = '-' || c = '_' then c else '_')
  let joined := "_".intercalate ((pySplitL title_part).map (fun l => (⟨l⟩ : String)))
  joined ++ "_" ++ (⟨paper.paper_id.data.take 8⟩ : String) ++ ".pdf"

/-- The destination path `conferences_root / conference_name / "pdfs" /
filename` (path joining modelled as `/`-concatenation). -/
def output_path_of (conferences_root conference_name : String)
    (paper : PaperMetadata) : String :=
  conferences_root ++ "/" ++ conference_name ++ "/pdfs/" ++ generate_pdf_filename paper

/-- The collaborator oracles one `download_paper` run consumes. -/
structure DpEnv where
  exc : Bool
  entries : List ArxivEntry
  dl : DlOutcome
  overview : Option String

/-- Model of `DownloadService.download_paper` (lines 20-49): refuse when
the destination already exists; search-gate-download; on download failure
report it (the downloader already cleaned up); on overview-extraction
failure delete the downloaded file; on success update the store. -/
def download_paper (env : DpEnv) (conferences_root : String)
    (paper : PaperMetadata) (conference_name : String) (fs : FS) :
    (Bool × String) × FS × List Event :=
  let output_path := output_path_of conferences_root conference_name paper
  if (fs output_path).isSome then ((false, "PDF already exists locally"), fs, [])
  else
    let ((success, message, arxiv_data), fs1, ev1) :=
      search_and_download env.exc env.entries env.dl paper.title output_path (6/10) fs
    if !success then ((false, message), fs1, ev1)
    else
      let pdf_url := arxiv_data.map (fun d => d.pdf_url)
      if env.overview.getD "" = "" then
        ((false, message ++ " | Failed to extract overview from PDF"),
          fsRemove output_path fs1, ev1)
      else
        ((true, message ++ " | Overview updated from PDF"), fs1,
          ev1 ++ [.updateOverview paper.paper_id (env.overview.getD ""),
                  .updatePdfInfo paper.paper_id output_path pdf_url])

/-- Model of `DownloadService.download_paper_from_url` (lines 51-74): the
manual-URL variant, with the same exists-guard, overview extraction and
rollback. -/
def download_paper_from_url (dl : DlOutcome) (overview : Option String)
    (conferences_root : String) (paper : PaperMetadata)
    (conference_name : String) (url : String) (fs : FS) :
    (Bool × String) × FS × List Event :=
  let output_path := output_path_of conferences_root conference_name paper
  if (fs output_path).isSome then ((false, "PDF already exists locally"), fs, [])
  else
    let ((success, message), fs1, ev1) := download_from_url dl url output_path fs
    if !success then ((false, message), fs1, ev1)
    else
      if overview.getD "" = "" then
        ((false, message ++ " | Failed to extract overview from PDF"),
          fsRemove output_path fs1, ev1)
      else
        ((true, message ++ " | Overview updated from PDF"), fs1,
          ev1 ++ [.updateOverview paper.paper_id (overview.getD ""),
                  .updatePdfInfo paper.paper_id output_path (some url)])

/-! ## `ImageExtractor` (src/extractors/image_extractor.py)

The Ollama client is a collaborator: `check_connection` becomes the
boolean oracle `conn`, and `analyze_image` becomes the oracle `resp`,
indexed by the `use_simple` prompt flag of the attempt.  Each result
carries the list of `analyze_image` invocations it performed (`false` =
detailed prompt, `true` = simplified prompt). -/

/-- Outcome of one `analyze_image` call: a failure message (unreadable
image, connection error, timeout, bad status) or the raw response text. -/
inductive AnalyzeOutcome where
  | err (msg : String) : AnalyzeOutcome
  | ok (text : String) : AnalyzeOutcome

/-- The extraction result dict. -/
structure ExtractResult where
  success : Bool
  paper_metadata : Option PaperMetadata
  raw_response : String
  error : Option String

/-- `Author(name=...)` for each truthy author entry; a truthy non-string
entry makes the pydantic constructor raise, which `_parse_response`
catches, yielding `None`. -/
def buildAuthors : List Json → Option (List Author)
  | [] => some []
  | .str s :: rest => (buildAuthors rest).map (fun as => ⟨s⟩ :: as)
  | _ :: _ => none

/-- Model of `ImageExtractor._parse_response` (lines 125-173):
`extract_json_safely`, then `validate_paper_data`, then the
`PaperMetadata` construction. -/
def parse_response (response_text : String) (source_path : String) :
    Option PaperMetadata :=
  match extract_json_safely response_text with
  | none => none
  | some j =>
    match j with
    | .obj kvs =>
      let d := validate_paper_data kvs
      match buildAuthors d.authors with
      | none => none
      | some authors =>
        some
          { paper_id := ""
            title := d.title
            authors := authors
            overview := d.overview
            conference_name := some "Unknown"
            pdf_found := false
            pdf_path := some "Unknown"
            pdf_url := some "Unknown"
            source_files := [source_path] }
    | _ => none

/-- Model of `ImageExtractor._attempt_extraction` (lines 62-123): one
`analyze_image` call; a backend error is reported without attempting
recovery, otherwise the raw text goes through `_parse_response`. -/
def attempt_extraction (resp : Bool → AnalyzeOutcome) (source_path : String)
    (use_simple : Bool) : ExtractResult × List Bool :=
  match resp use_simple with
  | .err e =>
    ({ success := false, paper_metadata := none, raw_response := "", error := some e },
      [use_simple])
  | .ok text =>
    match parse_response text source_path with
    | some pm =>
      ({ success := true, paper_metadata := some pm, raw_response := text, error := none },
        [use_simple])
    | none =>
      ({ success := false, paper_metadata := none, raw_response := text,
         error := some "Failed to parse model response as JSON" }, [use_simple])

/-- Model of `ImageExtractor.extract_from_image` (lines 33-60): probe the
connection (no model call when it fails), attempt with the detailed
prompt, and retry exactly once with the simplified prompt iff the first
attempt did not succeed and `retry` is set. -/
def extract_from_image (conn : Bool) (resp : Bool → AnalyzeOutcome)
    (source_path : String) (retry : Bool) : ExtractResult × List Bool :=
  if !conn then
    ({ success := false, paper_metadata := none, raw_response := "",
       error := some "Cannot connect to Ollama. Is it running?" }, [])
  else
    let (r1, c1) := attempt_extraction resp source_path false
    if !r1.success && retry then
      let (r2, c2) := attempt_extraction resp source_path true
      (r2, c1 ++ c2)
    else (r1, c1)

/-! ## Concrete inputs used by witnesses and counterexamples -/

/-- The raw model response of the spec's end-to-end scenario 1. -/
def scenario1Raw : String :=
  "Here's the JSON:\n```json\n\x7b'title': 'Foo', 'authors': ['A','B'], 'overview': None\x7d\n```"

/-- An empty filesystem. -/
def fsEmpty : FS := fun _ => none

/-- A sample candidate whose generated filename is exercised by the
download-service witnesses. -/
def paperW : PaperMetadata :=
  { paper_id := "12345678-abcd", title := "attention", authors := [],
    overview := none, conference_name := some "Unknown", pdf_found := false,
    pdf_path := none, pdf_url := none, source_files := [] }

/-- A filesystem already holding `paperW`'s destination file. -/
def fsExisting : FS :=
  fun p => if p = output_path_of "data/conferences" "conf" paperW then some 2048 else none

/-- Oracles for a run whose search raises. -/
def envNetFail : DpEnv :=
  { exc := true, entries := [], dl := DlOutcome.netFail, overview := none }

/-- A feed entry for an unrelated paper. -/
def entryUnrelated : ArxivEntry :=
  { idText := some "http://arxiv.org/abs/2101.00001v1",
    titleText := some "Unrelated Survey on Databases", authorNames := [] }

/-- A candidate with an empty title. -/
def paperEmptyTitle : PaperMetadata :=
  { paper_id := "p-empty", title := "", authors := [], overview := none,
    conference_name := none, pdf_found := false, pdf_path := none,
    pdf_url := none, source_files := [] }

/-- A source file whose path (and hence stem) is empty. -/
def fileEmptyPath : SourceFile := { file_path := "" }

/-- A candidate with title `ab`. -/
def paperAB : PaperMetadata :=
  { paper_id := "p-ab", title := "ab", authors := [], overview := none,
    conference_name := none, pdf_found := false, pdf_path := none,
    pdf_url := none, source_files := [] }

/-- A local file whose stem matches `paperAB` exactly. -/
def fileAB : SourceFile := { file_path := "ab.pdf" }

/-- Validity of a block within the window. -/
def BlockValid (alo ahi blo bhi : Nat) (st : Nat × Nat × Nat) : Prop :=
  alo ≤ st.1 ∧ blo ≤ st.2.1 ∧ st.1 + st.2.2 ≤ ahi ∧ st.2.1 + st.2.2 ≤ bhi

/-- The row maximum: best score of one file over a list of search
strings. -/
def rowMax (ss : List String) (name : String) : ℚ :=
  ss.foldl (fun m s => max m (calculate_similarity s name)) 0

/-- The maximum score a file attains over the candidate's search
strings. -/
def fileMaxScore (paper : PaperMetadata) (f : SourceFile) : ℚ :=
  rowMax (generate_search_strings paper) (pyLower (pathStem f.file_path))

/-- The maximum score over every search-string × file pair. -/
def globalMaxScore (paper : PaperMetadata) (files : List SourceFile) : ℚ :=
  files.foldl (fun m f => max m (fileMaxScore paper f)) 0

/-! ## Lemmas: `SequenceMatcher` model -/

/-- A fold preserves any invariant its step preserves. -/
theorem foldl_preserve {α σ : Type _} (P : σ → Prop) (f : σ → α → σ)
    (h : ∀ s x, P s → P (f s x)) :
    ∀ (l : List α) (init : σ), P init → P (l.foldl f init) := by
  intro l
  induction l with
  | nil => intro init h0; simpa using h0
  | cons x xs ih => intro init h0; simpa using ih (f init x) (h init x h0)

/-- Unfolding of a true `chainCond`. -/
theorem chainCond_iff {a b : List Char} {pop : Char → Bool}
    {alo ahi blo bhi i j : Nat} :
    chainCond a b pop alo ahi blo bhi i j = true ↔
      alo ≤ i ∧ i < ahi ∧ blo ≤ j ∧ j < bhi ∧ getC a i = getC b j ∧ pop (getC b j) = false := by
  simp [chainCond, Bool.and_eq_true, decide_eq_true_eq, and_assoc]

/-- The chain value is bounded by the distance to the window's left edge
on the `a` side. -/
theorem chainLen_le_left (a b : List Char) (pop : Char → Bool)
    (alo ahi blo bhi : Nat) :
    ∀ i j, chainLen a b pop alo ahi blo bhi i j ≤ i + 1 - alo := by
  intro i
  induction i with
  | zero =>
    intro j
    rcases j with _ | j <;>
      · simp only [chainLen]
        split
        · next hc =>
          simp only [chainCond, Bool.and_eq_true, decide_eq_true_eq, Nat.zero_eq] at hc
          omega
        · omega
  | succ i ih =>
    intro j
    rcases j with _ | j
    · simp only [chainLen]
      split
      · next hc =>
        simp only [chainCond, Bool.and_eq_true, decide_eq_true_eq, Nat.zero_eq] at hc
        omega
      · omega
    · simp only [chainLen]
      split
      · next hc =>
        simp only [chainCond, Bool.and_eq_true, decide_eq_true_eq, Nat.zero_eq] at hc
        have := ih j
        omega
      · omega

/-- The chain value is bounded by the distance to the window's left edge
on the `b` side. -/
theorem chainLen_le_right (a b : List Char) (pop : Char → Bool)
    (alo ahi blo bhi : Nat) :
    ∀ i j, chainLen a b pop alo ahi blo bhi i j ≤ j + 1 - blo := by
  intro i
  induction i with
  | zero =>
    intro j
    rcases j with _ | j <;>
      · simp only [chainLen]
        split
        · next hc =>
          simp only [chainCond, Bool.and_eq_true, decide_eq_true_eq, Nat.zero_eq] at hc
          omega
        · omega
  | succ i ih =>
    intro j
    rcases j with _ | j
    · simp only [chainLen]
      split
      · next hc =>
        simp only [chainCond, Bool.and_eq_true, decide_eq_true_eq, Nat.zero_eq] at hc
        omega
      · omega
    · simp only [chainLen]
      split
      · next hc =>
        simp only [chainCond, Bool.and_eq_true, decide_eq_true_eq, Nat.zero_eq] at hc
        have := ih j
        omega
      · omega

/-- A positive chain value certifies the window membership of its end. -/
theorem chainLen_pos (a b : List Char) (pop : Char → Bool)
    (alo ahi blo bhi : Nat) :
    ∀ i j, 0 < chainLen a b pop alo ahi blo bhi i j →
      alo ≤ i ∧ i < ahi ∧ blo ≤ j ∧ j < bhi := by
  intro i j h
  rcases i with _ | i <;> rcases j with _ | j <;>
    · simp only [chainLen] at h
      split at h
      · next hc =>
        simp only [chainCond, Bool.and_eq_true, decide_eq_true_eq, Nat.zero_eq] at hc
        omega
      · omega

/-- The main loop of `find_longest_match` keeps its block inside the
window. -/
theorem bestBlock_valid (a b : List Char) (pop : Char → Bool)
    (alo ahi blo bhi : Nat) (ha : alo ≤ ahi) (hb : blo ≤ bhi) :
    BlockValid alo ahi blo bhi (bestBlock a b pop alo ahi blo bhi) := by
  unfold bestBlock
  apply foldl_preserve (BlockValid alo ahi blo bhi)
  · intro st i hst
    apply foldl_preserve (BlockValid alo ahi blo bhi)
    · intro st' j hst'
      unfold bestStep
      dsimp only
      have h5 := chainLen_le_left a b pop alo ahi blo bhi i j
      have h5b := chainLen_le_right a b pop alo ahi blo bhi i j
      have h6 := chainLen_pos a b pop alo ahi blo bhi i j
      rcases hst' with ⟨g1, g2, g3, g4⟩
      have h7 : ∃ K, chainLen a b pop alo ahi blo bhi i j = K := ⟨_, rfl⟩
      obtain ⟨K, hK⟩ := h7
      rw [hK] at h5 h5b h6 ⊢
      split
      · next hlt =>
        have hpos : 0 < K := by omega
        rcases h6 hpos with ⟨h1, h2, h3, h4⟩
        refine ⟨?_, ?_, ?_, ?_⟩ <;> dsimp only <;> omega
      · exact ⟨g1, g2, g3, g4⟩
    · exact hst
  · exact ⟨le_refl _, le_refl _, by simpa using ha, by simpa using hb⟩

/-- The backward extension loops preserve validity. -/
theorem extendB_valid (a b : List Char) (p : Char → Bool) (alo blo : Nat)
    (ahi bhi : Nat) :
    ∀ i j k, alo ≤ i → blo ≤ j → i + k ≤ ahi → j + k ≤ bhi →
      BlockValid alo ahi blo bhi (extendB a b p alo blo i j k) := by
  intro i
  induction i with
  | zero =>
    intro j k h1 h2 h3 h4
    match j with
    | 0 => exact ⟨h1, h2, h3, h4⟩
    | j+1 => exact ⟨h1, h2, h3, h4⟩
  | succ i ih =>
    intro j k h1 h2 h3 h4
    match j with
    | 0 => exact ⟨h1, h2, h3, h4⟩
    | j+1 =>
      simp only [extendB]
      split
      · next hc =>
        simp only [Bool.and_eq_true, decide_eq_true_eq] at hc
        exact ih j (k+1) (by omega) (by omega) (by omega) (by omega)
      · exact ⟨h1, h2, h3, h4⟩

/-- The forward extension loops stay within the window and only grow. -/
theorem extendF_bounds (a b : List Char) (p : Char → Bool) (ahi bhi i j : Nat) :
    ∀ fuel k, i + k ≤ ahi → j + k ≤ bhi →
      k ≤ extendF a b p ahi bhi i j fuel k ∧
        i + extendF a b p ahi bhi i j fuel k ≤ ahi ∧
        j + extendF a b p ahi bhi i j fuel k ≤ bhi := by
  intro fuel
  induction fuel with
  | zero => intro k h1 h2; exact ⟨le_refl _, h1, h2⟩
  | succ fuel ih =>
    intro k h1 h2
    simp only [extendF]
    split
    · next hc =>
      simp only [Bool.and_eq_true, decide_eq_true_eq] at hc
      have := ih (k+1) (by omega) (by omega)
      exact ⟨by omega, this.2.1, this.2.2⟩
    · exact ⟨le_refl _, h1, h2⟩

/-- `find_longest_match` returns a block inside the window. -/
theorem findLongestMatch_valid (a b : List Char) (pop junk : Char → Bool)
    (alo ahi blo bhi : Nat) (ha : alo ≤ ahi) (hb : blo ≤ bhi) :
    BlockValid alo ahi blo bhi (findLongestMatch a b pop junk alo ahi blo bhi) := by
  unfold findLongestMatch
  have h0 := bestBlock_valid a b pop alo ahi blo bhi ha hb
  rcases h0 with ⟨h1, h2, h3, h4⟩
  have h5 := extendB_valid a b (fun c => !junk c) alo blo ahi bhi
    (bestBlock a b pop alo ahi blo bhi).1 (bestBlock a b pop alo ahi blo bhi).2.1
    (bestBlock a b pop alo ahi blo bhi).2.2 h1 h2 h3 h4
  rcases h5 with ⟨h6, h7, h8, h9⟩
  have h10 := extendF_bounds a b (fun c => !junk c) ahi bhi _ _ (ahi + 1) _ h8 h9
  rcases h10 with ⟨h11, h12, h13⟩
  have h14 := extendB_valid a b junk alo blo ahi bhi _ _ _ h6 h7 h12 h13
  rcases h14 with ⟨h15, h16, h17, h18⟩
  have h19 := extendF_bounds a b junk ahi bhi _ _ (ahi + 1) _ h17 h18
  rcases h19 with ⟨h20, h21, h22⟩
  exact ⟨h15, h16, h21, h22⟩

/-- The matched total never exceeds either window side. -/
theorem matchedTotF_le (a b : List Char) (pop junk : Char → Bool) :
    ∀ fuel alo ahi blo bhi, alo ≤ ahi → blo ≤ bhi →
      matchedTotF a b pop junk fuel alo ahi blo bhi ≤ ahi - alo ∧
        matchedTotF a b pop junk fuel alo ahi blo bhi ≤ bhi - blo := by
  intro fuel
  induction fuel with
  | zero => intro alo ahi blo bhi _ _; simp [matchedTotF]
  | succ fuel ih =>
    intro alo ahi blo bhi ha hb
    have hv := findLongestMatch_valid a b pop junk alo ahi blo bhi ha hb
    simp only [matchedTotF]
    rcases hm : findLongestMatch a b pop junk alo ahi blo bhi with ⟨i, j, k⟩
    rw [hm] at hv
    rcases hv with ⟨h1, h2, h3, h4⟩
    simp only at h1 h2 h3 h4
    dsimp only
    split
    · omega
    · have hL : (if alo < i ∧ blo < j then matchedTotF a b pop junk fuel alo i blo j else 0) ≤ i - alo ∧
          (if alo < i ∧ blo < j then matchedTotF a b pop junk fuel alo i blo j else 0) ≤ j - blo := by
        split
        · next hcond => exact ih alo i blo j (by omega) (by omega)
        · omega
      have hR : (if i + k < ahi ∧ j + k < bhi then matchedTotF a b pop junk fuel (i+k) ahi (j+k) bhi else 0) ≤ ahi - (i + k) ∧
          (if i + k < ahi ∧ j + k < bhi then matchedTotF a b pop junk fuel (i+k) ahi (j+k) bhi else 0) ≤ bhi - (j + k) := by
        split
        · next hcond => exact ih (i+k) ahi (j+k) bhi (by omega) (by omega)
        · omega
      omega

/-- The matched total is at most each length. -/
theorem matchedTotal_le (a b : List Char) :
    matchedTotal a b ≤ a.length ∧ matchedTotal a b ≤ b.length := by
  have := matchedTotF_le a b (popularB b) (fun _ => false)
    (a.length + b.length + 1) 0 a.length 0 b.length (by omega) (by omega)
  simpa [matchedTotal] using this

/-- The ratio lies in `[0, 1]`. -/
theorem ratioQ_bounds (a b : List Char) : 0 ≤ ratioQ a b ∧ ratioQ a b ≤ 1 := by
  unfold ratioQ
  dsimp only
  split
  · norm_num
  · next hT =>
    have hTpos : 0 < (((a.length + b.length : Nat)) : ℚ) := by
      have : 0 < a.length + b.length := Nat.pos_of_ne_zero hT
      exact_mod_cast this
    constructor
    · positivity
    · rw [div_le_one hTpos]
      have h := matchedTotal_le a b
      have ha : (matchedTotal a b : ℚ) ≤ (a.length : ℚ) := by exact_mod_cast h.1
      have hb : (matchedTotal a b : ℚ) ≤ (b.length : ℚ) := by exact_mod_cast h.2
      push_cast
      linarith

/-! ### The ratio of identical sequences is 1

On `a = b` with a diagonal window every update of the main loop happens
on the diagonal (an off-diagonal chain is dominated by the diagonal chain
ending at the smaller index, which the loop has already seen), and the
non-junk extension loops then stretch the diagonal block across the whole
window. -/

/-- A true chain guard transfers to the diagonal point at `min i j`. -/
theorem chainCond_diag (a : List Char) (pop : Char → Bool) (alo ahi : Nat)
    {i j : Nat} (h : chainCond a a pop alo ahi alo ahi i j = true) :
    chainCond a a pop alo ahi alo ahi (min i j) (min i j) = true := by
  simp only [chainCond, Bool.and_eq_true, decide_eq_true_eq, beq_iff_eq,
    Bool.not_eq_true'] at h
  rcases h with ⟨⟨⟨⟨⟨h1, h2⟩, h3⟩, h4⟩, h5⟩, h6⟩
  have hmi : min i j ≤ i := Nat.min_le_left i j
  have hmj : min i j ≤ j := Nat.min_le_right i j
  have hm1 : alo ≤ min i j := le_min h1 h3
  have hm2 : min i j < ahi := lt_of_le_of_lt hmi h2
  have hpop : pop (getC a (min i j)) = false := by
    rcases Nat.le_total i j with hij | hij
    · rw [Nat.min_eq_left hij, h5]; exact h6
    · rw [Nat.min_eq_right hij]; exact h6
  simp only [chainCond, decide_eq_true hm1, decide_eq_true hm2, beq_self_eq_true,
    hpop, Bool.and_self, Bool.and_true, Bool.true_and, Bool.not_false]

/-- On identical sequences with a diagonal window, any chain is dominated
by the diagonal chain at the smaller index. -/
theorem chainLen_diag_le (a : List Char) (pop : Char → Bool) (alo ahi : Nat) :
    ∀ i j, chainLen a a pop alo ahi alo ahi i j ≤
      chainLen a a pop alo ahi alo ahi (min i j) (min i j) := by
  intro i
  induction i with
  | zero =>
    intro j
    rcases j with _ | j
    · exact le_refl _
    · rw [Nat.zero_min]
      simp only [chainLen]
      split
      · next hc =>
        have hd := chainCond_diag a pop alo ahi hc
        rw [Nat.zero_min] at hd
        rw [if_pos hd]
      · exact Nat.zero_le _
  | succ i ih =>
    intro j
    rcases j with _ | j
    · rw [Nat.min_zero]
      simp only [chainLen]
      split
      · next hc =>
        have hd := chainCond_diag a pop alo ahi hc
        rw [Nat.min_zero] at hd
        rw [if_pos hd]
      · exact Nat.zero_le _
    · rw [Nat.succ_min_succ]
      simp only [chainLen]
      split
      · next hc =>
        have hd := chainCond_diag a pop alo ahi hc
        rw [Nat.succ_min_succ] at hd
        rw [if_pos hd]
        have := ih j
        omega
      · exact Nat.zero_le _

/-- Inner (per-row) invariant of the main loop on identical sequences:
the best block stays diagonal and its size dominates every diagonal chain
already processed. -/
theorem innerDiag (a : List Char) (pop : Char → Bool) (alo ahi i : Nat) :
    ∀ (n c : Nat) (st : Nat × Nat × Nat),
      st.1 = st.2.1 →
      (∀ m, alo ≤ m → m < ahi → (m < i ∨ (m = i ∧ m < c)) →
        chainLen a a pop alo ahi alo ahi m m ≤ st.2.2) →
      ((List.range' c n).foldl (bestStep a a pop alo ahi alo ahi i) st).1 =
          ((List.range' c n).foldl (bestStep a a pop alo ahi alo ahi i) st).2.1 ∧
        ∀ m, alo ≤ m → m < ahi → (m < i ∨ (m = i ∧ m < c + n)) →
          chainLen a a pop alo ahi alo ahi m m ≤
            ((List.range' c n).foldl (bestStep a a pop alo ahi alo ahi i) st).2.2 := by
  intro n
  induction n with
  | zero =>
    intro c st h1 h2
    simp only [List.range'_zero, List.foldl_nil]
    exact ⟨h1, fun m hm1 hm2 hm3 => h2 m hm1 hm2 (by omega)⟩
  | succ n ih =>
    intro c st h1 h2
    rw [List.range'_succ]
    simp only [List.foldl_cons]
    have hKex : ∃ K, chainLen a a pop alo ahi alo ahi i c = K := ⟨_, rfl⟩
    obtain ⟨K, hK⟩ := hKex
    have hdle := chainLen_diag_le a pop alo ahi i c
    have hpos := chainLen_pos a a pop alo ahi alo ahi i c
    have hstep : bestStep a a pop alo ahi alo ahi i st c =
        if st.2.2 < K then (i + 1 - K, c + 1 - K, K) else st := by
      unfold bestStep; rw [hK]
    rw [hstep]
    by_cases hlt : st.2.2 < K
    · rw [if_pos hlt]
      -- the update must be diagonal
      have hKpos : 0 < K := by omega
      rw [hK] at hpos hdle
      rcases hpos hKpos with ⟨p1, p2, p3, p4⟩
      have hic : i = c := by
        by_contra hne
        rcases Nat.lt_or_ge i c with hlt2 | hge
        · -- i < c : dominated by the diagonal chain at i, already seen
          rw [Nat.min_eq_left (Nat.le_of_lt hlt2)] at hdle
          have := h2 i p1 p2 (Or.inr ⟨rfl, hlt2⟩)
          omega
        · have hlt3 : c < i := by omega
          rw [Nat.min_eq_right (Nat.le_of_lt hlt3)] at hdle
          have := h2 c p3 p4 (Or.inl hlt3)
          omega
      subst hic
      have hres := ih (i + 1) (i + 1 - K, i + 1 - K, K) rfl
        (by
          intro m hm1 hm2 hm3
          dsimp only
          rcases hm3 with hm3 | ⟨hm3, hm4⟩
          · have := h2 m hm1 hm2 (Or.inl hm3)
            omega
          · rw [hm3]
            omega)
      refine ⟨hres.1, fun m hm1 hm2 hm3 => hres.2 m hm1 hm2 ?_⟩
      rcases hm3 with hm3 | ⟨hm3, hm4⟩
      · exact Or.inl hm3
      · exact Or.inr ⟨hm3, by omega⟩
    · rw [if_neg hlt]
      have hres := ih (c + 1) st h1
        (by
          intro m hm1 hm2 hm3
          rcases hm3 with hm3 | ⟨hm3, hm4⟩
          · exact h2 m hm1 hm2 (Or.inl hm3)
          · by_cases hmc : m < c
            · exact h2 m hm1 hm2 (Or.inr ⟨hm3, hmc⟩)
            · have hic : i = c := by omega
              rw [← hic] at hK
              rw [hm3]
              omega)
      refine ⟨hres.1, fun m hm1 hm2 hm3 => hres.2 m hm1 hm2 ?_⟩
      rcases hm3 with hm3 | ⟨hm3, hm4⟩
      · exact Or.inl hm3
      · exact Or.inr ⟨hm3, by omega⟩

/-- Outer invariant of the main loop on identical sequences. -/
theorem outerDiag (a : List Char) (pop : Char → Bool) (alo ahi : Nat) :
    ∀ (n i : Nat) (st : Nat × Nat × Nat),
      st.1 = st.2.1 →
      (∀ m, alo ≤ m → m < ahi → m < i →
        chainLen a a pop alo ahi alo ahi m m ≤ st.2.2) →
      (((List.range' i n).foldl
          (fun st i' => (List.range' alo (ahi - alo)).foldl
            (bestStep a a pop alo ahi alo ahi i') st) st).1 =
        ((List.range' i n).foldl
          (fun st i' => (List.range' alo (ahi - alo)).foldl
            (bestStep a a pop alo ahi alo ahi i') st) st).2.1) := by
  intro n
  induction n with
  | zero =>
    intro i st h1 _
    simpa using h1
  | succ n ih =>
    intro i st h1 h2
    rw [List.range'_succ]
    simp only [List.foldl_cons]
    have hrow := innerDiag a pop alo ahi i (ahi - alo) alo st h1
      (by
        intro m hm1 hm2 hm3
        rcases hm3 with hm3 | ⟨_, hm4⟩
        · exact h2 m hm1 hm2 hm3
        · omega)
    apply ih (i + 1) _ hrow.1
    intro m hm1 hm2 hm3
    apply hrow.2 m hm1 hm2
    by_cases hmi : m < i
    · exact Or.inl hmi
    · have : m = i := by omega
      exact Or.inr ⟨this, by omega⟩

/-- The main loop's block is diagonal on identical sequences. -/
theorem bestBlock_diag (a : List Char) (pop : Char → Bool) (alo ahi : Nat) :
    (bestBlock a a pop alo ahi alo ahi).1 = (bestBlock a a pop alo ahi alo ahi).2.1 := by
  unfold bestBlock
  exact outerDiag a pop alo ahi (ahi - alo) alo (alo, alo, 0) rfl
    (fun m hm1 _ hm3 => by omega)

/-- With an always-true junk polarity, the backward extension loop on a
diagonal block of identical sequences runs to the window's left edge. -/
theorem extendB_diag_full (a : List Char) (p : Char → Bool) (hp : ∀ c, p c = true)
    (alo : Nat) :
    ∀ i k, alo ≤ i → extendB a a p alo alo i i k = (alo, alo, k + (i - alo)) := by
  intro i
  induction i with
  | zero =>
    intro k h
    have h0 : alo = 0 := Nat.le_zero.mp h
    subst h0
    simp [extendB]
  | succ i ih =>
    intro k h
    simp only [extendB]
    by_cases hlt : alo < i + 1
    · rw [hp (getC a i)]
      simp only [beq_self_eq_true, Bool.and_true, Bool.true_and, decide_eq_true_eq]
      rw [if_pos (by simp [hlt] : (decide (alo < i + 1) && decide (alo < i + 1)) = true)]
      rw [ih k.succ (by omega)]
      have : k + 1 + (i - alo) = k + (i + 1 - alo) := by omega
      rw [this]
    · have heq : alo = i + 1 := by omega
      rw [if_neg (by simp [hlt])]
      rw [heq]
      simp

/-- With an always-true junk polarity, the forward extension loop on a
diagonal block of identical sequences runs to the window's right edge. -/
theorem extendF_diag_full (a : List Char) (p : Char → Bool) (hp : ∀ c, p c = true)
    (ahi i : Nat) :
    ∀ fuel k, ahi ≤ i + k + fuel →
      extendF a a p ahi ahi i i fuel k = k + (ahi - (i + k)) := by
  intro fuel
  induction fuel with
  | zero =>
    intro k h
    simp only [extendF]
    omega
  | succ fuel ih =>
    intro k h
    simp only [extendF]
    by_cases hlt : i + k < ahi
    · rw [hp (getC a (i + k))]
      simp only [beq_self_eq_true, Bool.and_true, Bool.true_and, decide_eq_true_eq]
      rw [if_pos (by simp [hlt] : (decide (i + k < ahi) && decide (i + k < ahi)) = true)]
      rw [ih (k + 1) (by omega)]
      omega
    · rw [if_neg (by simp [hlt])]
      omega

/-- With an always-false junk polarity the backward extension loop is the
identity (the `bjunk` set is empty when `isjunk=None`). -/
theorem extendB_false (a b : List Char) (alo blo : Nat) :
    ∀ i j k, extendB a b (fun _ => false) alo blo i j k = (i, j, k) := by
  intro i j k
  rcases i with _ | i <;> rcases j with _ | j <;> simp [extendB]

/-- With an always-false junk polarity the forward extension loop is the
identity. -/
theorem extendF_false (a b : List Char) (ahi bhi i j : Nat) :
    ∀ fuel k, extendF a b (fun _ => false) ahi bhi i j fuel k = k := by
  intro fuel k
  rcases fuel with _ | fuel <;> simp [extendF]

/-- On identical sequences with `isjunk=None`, `find_longest_match`
returns the whole window. -/
theorem findLongestMatch_diag (a : List Char) (pop : Char → Bool) (alo ahi : Nat)
    (h : alo ≤ ahi) :
    findLongestMatch a a pop (fun _ => false) alo ahi alo ahi =
      (alo, alo, ahi - alo) := by
  unfold findLongestMatch
  have hd := bestBlock_diag a pop alo ahi
  have hv := bestBlock_valid a a pop alo ahi alo ahi h h
  rcases hst : bestBlock a a pop alo ahi alo ahi with ⟨bi, bj, k⟩
  rw [hst] at hd hv
  simp only at hd
  subst hd
  rcases hv with ⟨v1, _, v3, _⟩
  simp only at v1 v3
  dsimp only
  rw [extendB_diag_full a (fun _ : Char => !false) (fun _ => rfl) alo bi k v1]
  dsimp only
  rw [extendF_diag_full a (fun _ : Char => !false) (fun _ => rfl) ahi alo (ahi + 1)
    (k + (bi - alo)) (by omega)]
  have hk2 : k + (bi - alo) + (ahi - (alo + (k + (bi - alo)))) = ahi - alo := by omega
  rw [hk2]
  rw [extendB_false a a alo alo alo alo (ahi - alo)]
  dsimp only
  rw [extendF_false a a ahi ahi alo alo (ahi + 1) (ahi - alo)]

/-- On identical sequences the whole window is matched. -/
theorem matchedTotF_diag (a : List Char) (pop : Char → Bool) (alo ahi : Nat)
    (h : alo ≤ ahi) (fuel : Nat) :
    matchedTotF a a pop (fun _ => false) (fuel + 1) alo ahi alo ahi = ahi - alo := by
  simp only [matchedTotF, findLongestMatch_diag a pop alo ahi h]
  split
  · omega
  · have hL : ¬(alo < alo ∧ alo < alo) := by omega
    have hR : ¬(alo + (ahi - alo) < ahi ∧ alo + (ahi - alo) < ahi) := by omega
    rw [if_neg hL, if_neg hR]
    omega

/-- `matchedTotal` of a sequence with itself is its length. -/
theorem matchedTotal_self (a : List Char) : matchedTotal a a = a.length := by
  unfold matchedTotal
  have : a.length + a.length + 1 = (a.length + a.length) + 1 := rfl
  rw [this, matchedTotF_diag a (popularB a) 0 a.length (Nat.zero_le _)]
  omega

/-- `ratio` of a sequence with itself is exactly 1 (including the empty
sequence, where CPython returns 1.0 by convention). -/
theorem ratioQ_self (a : List Char) : ratioQ a a = 1 := by
  unfold ratioQ
  dsimp only
  rw [matchedTotal_self]
  split
  · rfl
  · next hT =>
    have hpos : ((a.length + a.length : Nat) : ℚ) ≠ 0 := by
      have : 0 < a.length + a.length := Nat.pos_of_ne_zero hT
      exact_mod_cast Nat.pos_iff_ne_zero.mp this
    rw [div_eq_one_iff_eq hpos]
    push_cast
    ring

/-- `_calculate_similarity(s, s) == 1.0` for every string. -/
theorem calculate_similarity_self (s : String) : calculate_similarity s s = 1 :=
  ratioQ_self (pyLower s).data

/-- `_calculate_similarity` always lies in `[0, 1]`. -/
theorem calculate_similarity_bounds (s1 s2 : String) :
    0 ≤ calculate_similarity s1 s2 ∧ calculate_similarity s1 s2 ≤ 1 :=
  ratioQ_bounds (pyLower s1).data (pyLower s2).data

/-! ## Lemmas: `PDFMatcher.match_paper_to_pdf` -/

/-- A max-fold from a nonnegative seed splits off its seed. -/
theorem foldl_max_split {α : Type _} (g : α → ℚ) (hg : ∀ s, 0 ≤ g s) :
    ∀ (l : List α) (x : ℚ), 0 ≤ x →
      l.foldl (fun m s => max m (g s)) x = max x (l.foldl (fun m s => max m (g s)) 0) := by
  intro l
  induction l with
  | nil =>
    intro x hx
    simp only [List.foldl_nil]
    exact (max_eq_left hx).symm
  | cons s t ih =>
    intro x hx
    simp only [List.foldl_cons]
    rw [ih (max x (g s)) (le_trans hx (le_max_left _ _)),
      ih (max 0 (g s)) (le_max_left _ _)]
    rw [max_eq_right (hg s)]
    rw [max_assoc]

/-- The row maximum is nonnegative. -/
theorem rowMax_nonneg (ss : List String) (name : String) : 0 ≤ rowMax ss name := by
  unfold rowMax
  induction ss with
  | nil => simp
  | cons s t ih =>
    simp only [List.foldl_cons]
    rw [foldl_max_split (fun s => calculate_similarity s name)
      (fun s => (calculate_similarity_bounds s name).1) t (max 0 (calculate_similarity s name))
      (le_max_left _ _)]
    exact le_trans (le_max_left _ _) (le_max_left _ _)

/-- Unfolding of the row maximum on a cons. -/
theorem rowMax_cons (s : String) (t : List String) (name : String) :
    rowMax (s :: t) name = max (calculate_similarity s name) (rowMax t name) := by
  unfold rowMax
  simp only [List.foldl_cons]
  rw [foldl_max_split (fun s => calculate_similarity s name)
    (fun s => (calculate_similarity_bounds s name).1) t (max 0 (calculate_similarity s name))
    (le_max_left _ _)]
  rw [max_eq_right (calculate_similarity_bounds s name).1]

/-- `fileMaxScore` is nonnegative. -/
theorem fileMaxScore_nonneg (paper : PaperMetadata) (f : SourceFile) :
    0 ≤ fileMaxScore paper f :=
  rowMax_nonneg _ _

/-- `globalMaxScore` is nonnegative. -/
theorem globalMaxScore_nonneg (paper : PaperMetadata) (files : List SourceFile) :
    0 ≤ globalMaxScore paper files := by
  unfold globalMaxScore
  induction files with
  | nil => simp
  | cons f t ih =>
    simp only [List.foldl_cons]
    rw [foldl_max_split (fileMaxScore paper) (fileMaxScore_nonneg paper) t
      (max 0 (fileMaxScore paper f)) (le_max_left _ _)]
    exact le_trans (le_max_left _ _) (le_max_left _ _)

/-- Unfolding of the global maximum on a cons. -/
theorem globalMaxScore_cons (paper : PaperMetadata) (f : SourceFile) (t : List SourceFile) :
    globalMaxScore paper (f :: t) = max (fileMaxScore paper f) (globalMaxScore paper t) := by
  unfold globalMaxScore
  simp only [List.foldl_cons]
  rw [foldl_max_split (fileMaxScore paper) (fileMaxScore_nonneg paper) t
    (max 0 (fileMaxScore paper f)) (le_max_left _ _)]
  rw [max_eq_right (fileMaxScore_nonneg paper f)]

/-- The inner fold over the search strings: it installs the file exactly
when the row maximum strictly beats the incoming best score. -/
theorem rowFold_eq (f : SourceFile) (name : String) :
    ∀ (ss : List String) (st : Option SourceFile × ℚ), 0 ≤ st.2 →
      ss.foldl (fun st s =>
        if st.2 < calculate_similarity s name then (some f, calculate_similarity s name) else st) st
        = if st.2 < rowMax ss name then (some f, rowMax ss name) else st := by
  intro ss
  induction ss with
  | nil =>
    intro st hst
    simp only [List.foldl_nil, rowMax]
    rw [if_neg (not_lt.mpr hst)]
  | cons s t ih =>
    intro st hst
    simp only [List.foldl_cons]
    rw [rowMax_cons]
    by_cases h1 : st.2 < calculate_similarity s name
    · rw [if_pos h1]
      rw [ih (some f, calculate_similarity s name) (calculate_similarity_bounds s name).1]
      dsimp only
      by_cases h2 : calculate_similarity s name < rowMax t name
      · rw [if_pos h2, max_eq_right (le_of_lt h2), if_pos (lt_trans h1 h2)]
      · rw [if_neg h2, max_eq_left (not_lt.mp h2), if_pos h1]
    · rw [if_neg h1]
      rw [ih st hst]
      by_cases h2 : st.2 < rowMax t name
      · rw [if_pos h2, max_eq_right (le_trans (not_lt.mp h1) (le_of_lt h2)), if_pos h2]
      · rw [if_neg h2, if_neg (not_lt.mpr (max_le (not_lt.mp h1) (not_lt.mp h2)))]

/-- The outer fold over the files: it returns the first file whose row
maximum attains the global maximum, when that maximum strictly beats the
incoming best score. -/
theorem filesFold_eq (paper : PaperMetadata) :
    ∀ (files : List SourceFile) (st : Option SourceFile × ℚ), 0 ≤ st.2 →
      files.foldl (fun st pdf_file =>
        (generate_search_strings paper).foldl (fun st search_str =>
          if st.2 < calculate_similarity search_str (pyLower (pathStem pdf_file.file_path)) then
            (some pdf_file, calculate_similarity search_str (pyLower (pathStem pdf_file.file_path)))
          else st) st) st
        = if st.2 < globalMaxScore paper files then
            (files.find? (fun g => decide (globalMaxScore paper files ≤ fileMaxScore paper g)),
              globalMaxScore paper files)
          else st := by
  intro files
  induction files with
  | nil =>
    intro st hst
    simp only [List.foldl_nil, globalMaxScore]
    rw [if_neg (not_lt.mpr hst)]
  | cons f t ih =>
    intro st hst
    simp only [List.foldl_cons]
    rw [rowFold_eq f (pyLower (pathStem f.file_path)) (generate_search_strings paper) st hst]
    rw [show rowMax (generate_search_strings paper) (pyLower (pathStem f.file_path)) =
      fileMaxScore paper f from rfl]
    rw [globalMaxScore_cons]
    by_cases h1 : st.2 < fileMaxScore paper f
    · rw [show (if st.2 < fileMaxScore paper f
          then (some f, fileMaxScore paper f)
          else st) = (some f, fileMaxScore paper f) from by rw [if_pos h1]]
      rw [ih (some f, fileMaxScore paper f) (fileMaxScore_nonneg paper f)]
      dsimp only
      by_cases h2 : fileMaxScore paper f < globalMaxScore paper t
      · rw [if_pos h2, max_eq_right (le_of_lt h2), if_pos (lt_trans h1 h2)]
        rw [List.find?_cons_of_neg _ (by simp only [decide_eq_true_eq]; exact not_le.mpr h2)]
      · rw [if_neg h2, max_eq_left (not_lt.mp h2), if_pos h1]
        rw [List.find?_cons_of_pos _ (by simp only [decide_eq_true_eq]; exact le_refl _)]
    · rw [show (if st.2 < fileMaxScore paper f
          then (some f, fileMaxScore paper f)
          else st) = st from by rw [if_neg h1]]
      rw [ih st hst]
      by_cases h2 : st.2 < globalMaxScore paper t
      · rw [if_pos h2, max_eq_right (le_trans (not_lt.mp h1) (le_of_lt h2)), if_pos h2]
        rw [List.find?_cons_of_neg _ (by
          simp only [decide_eq_true_eq]
          exact not_le.mpr (lt_of_le_of_lt (not_lt.mp h1) h2))]
      · rw [if_neg h2, if_neg (not_lt.mpr (max_le (not_lt.mp h1) (not_lt.mp h2)))]

/-! ## Lemmas: the whitespace guard of `extract_json_safely`

On an empty or whitespace-only input the source returns `None` before
trying any strategy; the cascade theorem needs that all four strategies
would have returned `none` there anyway. -/

/-- Enumeration of the modelled Python whitespace characters. -/
theorem pyIsSpace_cases (c : Char) (h : pyIsSpace c = true) :
    c = ' ' ∨ c = '\t' ∨ c = '\n' ∨ c = '\r' ∨ c = '\x0b' ∨ c = '\x0c' ∨
      c = '\x1c' ∨ c = '\x1d' ∨ c = '\x1e' ∨ c = '\x1f' ∨ c = '\x85' ∨ c = '\xa0' := by
  simp only [pyIsSpace, Bool.or_eq_true, decide_eq_true_eq] at h
  tauto

/-- A whitespace character is not a given non-whitespace character. -/
theorem pyws_ne {c d : Char} (hc : pyIsSpace c = true) (hd : pyIsSpace d = false) :
    (d == c) = false := by
  by_cases h : d = c
  · subst h; rw [hc] at hd; cases hd
  · exact beq_eq_false_iff_ne.mpr h

/-- The head of a `dropWhile` residue fails the predicate. -/
theorem dropWhile_head_false {α : Type _} (p : α → Bool) :
    ∀ (l : List α) (c : α) (rest : List α), l.dropWhile p = c :: rest → p c = false := by
  intro l
  induction l with
  | nil => intro c rest h; cases h
  | cons x xs ih =>
    intro c rest h
    rw [List.dropWhile_cons] at h
    split at h
    · exact ih c rest h
    · next hx =>
      cases h
      exact Bool.not_eq_true _ ▸ Bool.of_not_eq_true hx

/-- Membership survives `dropWhile` for elements failing the predicate. -/
theorem mem_dropWhile_of_false {α : Type _} (p : α → Bool) :
    ∀ (l : List α) (c : α), c ∈ l → p c = false → c ∈ l.dropWhile p := by
  intro l
  induction l with
  | nil => intro c hc; cases hc
  | cons x xs ih =>
    intro c hc hp
    rw [List.dropWhile_cons]
    split
    · next hx =>
      rcases List.mem_cons.mp hc with rfl | hc'
      · rw [hp] at hx; cases hx
      · exact ih c hc' hp
    · exact hc

/-- A stripped-to-empty string is whitespace-only. -/
theorem pyStripL_nil_all_ws (cs : List Char) (h : pyStripL cs = []) :
    ∀ c ∈ cs, pyIsSpace c = true := by
  intro c hc
  by_contra hcw
  have hcw' : pyIsSpace c = false := Bool.not_eq_true _ ▸ Bool.of_not_eq_true hcw
  have h1 : c ∈ cs.dropWhile pyIsSpace := mem_dropWhile_of_false pyIsSpace cs c hc hcw'
  have h2 : c ∈ (cs.dropWhile pyIsSpace).reverse.dropWhile pyIsSpace :=
    mem_dropWhile_of_false pyIsSpace _ c (List.mem_reverse.mpr h1) hcw'
  unfold pyStripL at h
  rw [List.reverse_eq_nil_iff] at h
  rw [h] at h2
  cases h2

/-- A whitespace-only list strips to empty. -/
theorem pyStripL_all_ws_nil (cs : List Char) (h : ∀ c ∈ cs, pyIsSpace c = true) :
    pyStripL cs = [] := by
  unfold pyStripL
  have h1 : cs.dropWhile pyIsSpace = [] := by
    rw [List.dropWhile_eq_nil_iff]
    exact fun c hc => h c hc
  rw [h1]
  rfl

/-- `parseValue` fails on an empty list. -/
theorem parseValue_nil (fuel : Nat) : parseValue fuel [] = none := by
  rcases fuel with _ | fuel <;> rfl

/-- `parseValue` fails when the head is a Python whitespace character that
JSON does not skip (no JSON value starts with one). -/
theorem parseValue_ws_head (fuel : Nat) (c : Char) (rest : List Char)
    (hpy : pyIsSpace c = true) (hjs : isJsonWs c = false) :
    parseValue fuel (c :: rest) = none := by
  rcases fuel with _ | fuel
  · rfl
  · simp only [isJsonWs, Bool.or_eq_true, decide_eq_true_eq] at hjs
    rcases pyIsSpace_cases c hpy with rfl | rfl | rfl | rfl | rfl | rfl | rfl | rfl | rfl | rfl | rfl | rfl <;>
      simp_all [parseValue, startsWithL, List.isPrefixOf, scanNumber, isDigit]

/-- `json.loads` fails on a whitespace-only input. -/
theorem jsonLoads_ws (t : String) (h : ∀ c ∈ t.data, pyIsSpace c = true) :
    jsonLoads t = none := by
  unfold jsonLoads
  rcases hd : t.data.dropWhile isJsonWs with _ | ⟨c, rest⟩
  · rw [parseValue_nil]
  · have hc : pyIsSpace c = true := by
      apply h
      have : (c :: rest) <:+ t.data := hd ▸ List.dropWhile_suffix isJsonWs
      exact this.subset (List.mem_cons_self c rest)
    have hjs : isJsonWs c = false := dropWhile_head_false isJsonWs t.data c rest hd
    rw [parseValue_ws_head _ c rest hc hjs]

/-- The fence-removal passes are the identity on whitespace-only text. -/
theorem removeLitWs_ws (ci : Bool) (pat' : List Char) :
    ∀ (fuel : Nat) (cs : List Char), (∀ c ∈ cs, pyIsSpace c = true) →
      removeLitWs ci ('`' :: pat') fuel cs = cs := by
  intro fuel
  induction fuel with
  | zero => intro cs _; rcases cs with _ | ⟨c, rest⟩ <;> rfl
  | succ fuel ih =>
    intro cs h
    rcases cs with _ | ⟨c, rest⟩
    · rfl
    · have hc : pyIsSpace c = true := h c (List.mem_cons_self c rest)
      have hL : startsWithL ('`' :: pat') (c :: rest) = false := by
        simp only [startsWithL, List.isPrefixOf]
        rw [pyws_ne hc (by decide)]
        rfl
      have hCI : startsWithCI ('`' :: pat') (c :: rest) = false := by
        simp only [startsWithCI, List.map_cons, List.isPrefixOf]
        have : (Char.toLower '`' == c.toLower) = false := by
          rcases pyIsSpace_cases c hc with rfl | rfl | rfl | rfl | rfl | rfl | rfl | rfl | rfl | rfl | rfl | rfl <;> decide
        rw [this]
        rfl
      simp only [removeLitWs]
      rcases ci with _ | _
      · rw [if_neg (by rw [hL]; exact Bool.false_ne_true)]
        rw [ih rest (fun d hd => h d (List.mem_cons_of_mem c hd))]
      · rw [if_neg (by rw [hCI]; exact Bool.false_ne_true)]
        rw [ih rest (fun d hd => h d (List.mem_cons_of_mem c hd))]

/-- The brace-span regex does not match whitespace-only text. -/
theorem braceSpanL_ws (cs : List Char) (h : ∀ c ∈ cs, pyIsSpace c = true) :
    braceSpanL cs = none := by
  unfold braceSpanL
  have h1 : cs.dropWhile (fun c => c ≠ '{') = [] := by
    rw [List.dropWhile_eq_nil_iff]
    intro c hc
    simp only [ne_eq, decide_not, Bool.not_eq_true', decide_eq_false_iff_not]
    intro he
    have := h c hc
    rw [he] at this
    cases this
  rw [h1]
  rfl

/-- The key-quoting pass is the identity on whitespace-only text. -/
theorem fixQuoteKeys_ws :
    ∀ (fuel : Nat) (cs : List Char), (∀ c ∈ cs, pyIsSpace c = true) →
      fixQuoteKeys fuel cs = cs := by
  intro fuel
  induction fuel with
  | zero => intro cs _; rcases cs with _ | ⟨c, rest⟩ <;> rfl
  | succ fuel ih =>
    intro cs h
    rcases cs with _ | ⟨c, rest⟩
    · rfl
    · have hc : pyIsSpace c = true := h c (List.mem_cons_self c rest)
      have hne : ¬(c = '\'') := by
        intro he; rw [he] at hc; cases hc
      simp only [fixQuoteKeys]
      rw [if_neg hne]
      rw [ih rest (fun d hd => h d (List.mem_cons_of_mem c hd))]

/-- The trailing-comma pass is the identity on whitespace-only text. -/
theorem fixTrailingCommas_ws :
    ∀ (fuel : Nat) (cs : List Char), (∀ c ∈ cs, pyIsSpace c = true) →
      fixTrailingCommas fuel cs = cs := by
  intro fuel
  induction fuel with
  | zero => intro cs _; rcases cs with _ | ⟨c, rest⟩ <;> rfl
  | succ fuel ih =>
    intro cs h
    rcases cs with _ | ⟨c, rest⟩
    · rfl
    · have hc : pyIsSpace c = true := h c (List.mem_cons_self c rest)
      have hne : ¬(c = ',') := by
        intro he; rw [he] at hc; cases hc
      simp only [fixTrailingCommas]
      rw [if_neg hne]
      rw [ih rest (fun d hd => h d (List.mem_cons_of_mem c hd))]

/-- The literal-word passes are the identity on whitespace-only text, for
any pattern starting with a non-whitespace character. -/
theorem wordReplace_ws (p0 : Char) (pat' rep : List Char) (hp0 : pyIsSpace p0 = false) :
    ∀ (fuel : Nat) (prev : Option Char) (cs : List Char),
      (∀ c ∈ cs, pyIsSpace c = true) →
      wordReplace (p0 :: pat') rep fuel prev cs = cs := by
  intro fuel
  induction fuel with
  | zero => intro prev cs _; rcases cs with _ | ⟨c, rest⟩ <;> rfl
  | succ fuel ih =>
    intro prev cs h
    rcases cs with _ | ⟨c, rest⟩
    · rfl
    · have hc : pyIsSpace c = true := h c (List.mem_cons_self c rest)
      have hL : startsWithL (p0 :: pat') (c :: rest) = false := by
        simp only [startsWithL, List.isPrefixOf]
        rw [pyws_ne hc hp0]
        rfl
      simp only [wordReplace]
      rw [if_neg (by rw [hL]; simp)]
      rw [ih (some c) rest (fun d hd => h d (List.mem_cons_of_mem c hd))]

/-- The strategy-3 regex does not match whitespace-only text. -/
theorem findNested_ws :
    ∀ (fuel : Nat) (cs : List Char), (∀ c ∈ cs, pyIsSpace c = true) →
      findNested fuel cs = none := by
  intro fuel
  induction fuel with
  | zero => intro cs _; rcases cs with _ | ⟨c, rest⟩ <;> rfl
  | succ fuel ih =>
    intro cs h
    rcases cs with _ | ⟨c, rest⟩
    · rfl
    · have hc : pyIsSpace c = true := h c (List.mem_cons_self c rest)
      have hne : nbTryAt (c :: rest) = none := by
        have hcne : ¬(c = '{') := by intro he; rw [he] at hc; cases hc
        unfold nbTryAt
        split
        · next heq =>
          exfalso
          injection heq with h1 h2
          exact hcne h1
        · rfl
      simp only [findNested, hne]
      exact ih rest (fun d hd => h d (List.mem_cons_of_mem c hd))

/-- The newline-repair pass is the identity on whitespace-only text. -/
theorem fixNewlinesL_ws :
    ∀ (fuel : Nat) (cs : List Char), (∀ c ∈ cs, pyIsSpace c = true) →
      fixNewlinesL fuel cs = cs := by
  intro fuel
  induction fuel with
  | zero => intro cs _; rcases cs with _ | ⟨c, rest⟩ <;> rfl
  | succ fuel ih =>
    intro cs h
    rcases cs with _ | ⟨c, rest⟩
    · rfl
    · have hc : pyIsSpace c = true := h c (List.mem_cons_self c rest)
      have hne : ¬(c = ':') := by
        intro he; rw [he] at hc; cases hc
      simp only [fixNewlinesL]
      rw [if_neg hne]
      rw [ih rest (fun d hd => h d (List.mem_cons_of_mem c hd))]

/-- `sanitize_json_string` of whitespace-only text strips to the empty
string. -/
theorem sanitize_json_string_ws (s : String) (h : ∀ c ∈ s.data, pyIsSpace c = true) :
    sanitize_json_string s = "" := by
  unfold sanitize_json_string
  dsimp only
  rw [removeLitWs_ws true _ _ s.data h]
  rw [removeLitWs_ws false _ _ s.data h]
  rw [braceSpanL_ws s.data h]
  rw [fixQuoteKeys_ws _ s.data h]
  rw [fixTrailingCommas_ws _ s.data h]
  rw [wordReplace_ws 'N' _ _ (by decide) _ none s.data h]
  rw [wordReplace_ws 'T' _ _ (by decide) _ none s.data h]
  rw [wordReplace_ws 'F' _ _ (by decide) _ none s.data h]
  have hctrl : ∀ c ∈ removeCtrl s.data, pyIsSpace c = true := by
    intro c hc
    exact h c (List.mem_of_mem_filter hc)
  rw [pyStripL_all_ws_nil _ hctrl]

/-- `json.loads` of the empty string fails. -/
theorem jsonLoads_empty : jsonLoads "" = none := rfl

/-! ## Lemmas: the download workflow -/

/-- A failed `download_pdf` leaves no file at the destination, whatever
was there before (undersize and mid-stream failures delete it, and the
pre-write failure path also unlinks an existing file). -/
theorem download_pdf_fail_no_file (dl : DlOutcome) (url path : String) (fs : FS)
    (h : (download_pdf dl url path fs).1 = false) :
    (download_pdf dl url path fs).2.1 path = none := by
  rcases dl with _ | ps | ⟨ct, size⟩
  · simp [download_pdf, fsRemove]
  · simp [download_pdf, fsRemove]
  · simp only [download_pdf] at h ⊢
    by_cases hsz : size < 1000
    · rw [if_pos hsz]
      simp [fsRemove]
    · rw [if_neg hsz] at h
      simp at h

/-- A successful `download_pdf` leaves the streamed file in place. -/
theorem download_pdf_ok_file (dl : DlOutcome) (url path : String) (fs : FS)
    (h : (download_pdf dl url path fs).1 = true) :
    ∃ size, (download_pdf dl url path fs).2.1 path = some size := by
  rcases dl with _ | ps | ⟨ct, size⟩
  · simp [download_pdf] at h
  · simp [download_pdf] at h
  · simp only [download_pdf] at h ⊢
    by_cases hsz : size < 1000
    · rw [if_pos hsz] at h
      simp at h
    · rw [if_neg hsz]
      exact ⟨size, by simp [fsSet]⟩

/-- A failed `search_and_download` leaves no file at a destination that
did not exist beforehand. -/
theorem search_and_download_fail_no_file (exc : Bool) (entries : List ArxivEntry)
    (dl : DlOutcome) (title output_path : String) (min_similarity : ℚ) (fs : FS)
    (h0 : fs output_path = none)
    (hf : (search_and_download exc entries dl title output_path min_similarity fs).1.1 = false) :
    (search_and_download exc entries dl title output_path min_similarity fs).2.1 output_path = none := by
  unfold search_and_download
  rcases hs : search_paper exc entries title with _ | hit
  · exact h0
  · dsimp only
    split
    · exact h0
    · rcases hdl : download_pdf dl hit.pdf_url output_path fs with ⟨ok, fs1, ev⟩
      dsimp only
      rcases ok with _ | _
      · rw [if_neg (by simp)]
        have := download_pdf_fail_no_file dl hit.pdf_url output_path fs (by rw [hdl])
        rw [hdl] at this
        exact this
      · -- successful download contradicts the failure hypothesis
        exfalso
        unfold search_and_download at hf
        rw [hs] at hf
        dsimp only at hf
        rw [if_neg (by assumption)] at hf
        rw [hdl] at hf
        simp at hf

/-- A failed `search_and_download` that never downloaded leaves the whole
filesystem untouched; rejection by the similarity gate also performs no
sleep and no download event. -/
theorem search_and_download_lowsim (exc : Bool) (entries : List ArxivEntry)
    (dl : DlOutcome) (title output_path : String) (min_similarity : ℚ) (fs : FS)
    (hit : ArxivHit) (hs : search_paper exc entries title = some hit)
    (hlow : hit.similarity < min_similarity) :
    search_and_download exc entries dl title output_path min_similarity fs =
      ((false, "Low similarity (" ++ fmt2 hit.similarity ++ "): '" ++ hit.title ++ "'", none),
        fs, [Event.search title]) := by
  unfold search_and_download
  rw [hs]
  dsimp only
  rw [if_pos hlow]

/-! ## Claim theorems -/

/-- C1: rollback/atomicity of acquisition.  Whenever `download_paper`
terminates in any state other than full success on a destination path
that did not previously exist — the search found nothing, the similarity
gate rejected the hit, the download produced an undersized file, a
download exception occurred mid-stream, or the post-download overview
extraction failed — the destination path holds no file when the
operation returns. -/
theorem download_paper_rollback (env : DpEnv) (root : String) (paper : PaperMetadata)
    (conference_name : String) (fs : FS)
    (h0 : fs (output_path_of root conference_name paper) = none)
    (hfail : (download_paper env root paper conference_name fs).1.1 = false) :
    (download_paper env root paper conference_name fs).2.1
      (output_path_of root conference_name paper) = none := by
  unfold download_paper at hfail ⊢
  dsimp only at hfail ⊢
  rw [h0] at hfail ⊢
  rw [if_neg (by simp)] at hfail ⊢
  have hEx : ∃ r, search_and_download env.exc env.entries env.dl paper.title
      (output_path_of root conference_name paper) (6/10) fs = r := ⟨_, rfl⟩
  obtain ⟨⟨⟨success, message, data⟩, fs1, ev1⟩, hsd⟩ := hEx
  rw [hsd] at hfail ⊢
  dsimp only at hfail ⊢
  rcases success with _ | _
  · rw [if_pos (show (!false) = true from rfl)]
    dsimp only
    have hres := search_and_download_fail_no_file env.exc env.entries env.dl paper.title
      (output_path_of root conference_name paper) (6/10) fs h0 (by rw [hsd])
    rw [hsd] at hres
    exact hres
  · rw [if_neg (by simp)] at hfail ⊢
    by_cases hov : env.overview.getD "" = ""
    · rw [if_pos hov]
      simp [fsRemove]
    · rw [if_neg hov] at hfail
      simp at hfail

/-- Closed instance of `download_paper_rollback`: a run whose remote
search raises fails, and the (initially absent) destination file is
absent afterwards. -/
theorem download_paper_rollback_witness :
    fsEmpty (output_path_of "data/conferences" "conf" paperW) = none ∧
      (download_paper envNetFail "data/conferences" paperW "conf" fsEmpty).1.1 = false ∧
      (download_paper envNetFail "data/conferences" paperW "conf" fsEmpty).2.1
        (output_path_of "data/conferences" "conf" paperW) = none :=
  ⟨rfl, rfl, download_paper_rollback envNetFail "data/conferences" paperW "conf" fsEmpty rfl rfl⟩

/-- C3: the remote similarity gate.  When the remote search yields a hit
whose word-overlap similarity to the query title is below the minimum
threshold, `search_and_download` terminates with the low-similarity
rejection, no download (and no rate-limit sleep) is attempted, and the
filesystem is untouched — only the search event occurs. -/
theorem search_and_download_gate (exc : Bool) (entries : List ArxivEntry)
    (dl : DlOutcome) (title output_path : String) (min_similarity : ℚ) (fs : FS)
    (hit : ArxivHit) (hs : search_paper exc entries title = some hit)
    (hlow : hit.similarity < min_similarity) :
    (search_and_download exc entries dl title output_path min_similarity fs).1.1 = false ∧
      (search_and_download exc entries dl title output_path min_similarity fs).1.2.1 =
        "Low similarity (" ++ fmt2 hit.similarity ++ "): '" ++ hit.title ++ "'" ∧
      (search_and_download exc entries dl title output_path min_similarity fs).2.1 = fs ∧
      (search_and_download exc entries dl title output_path min_similarity fs).2.2 =
        [Event.search title] := by
  rw [search_and_download_lowsim exc entries dl title output_path min_similarity fs hit hs hlow]
  exact ⟨rfl, rfl, rfl, rfl⟩

/-- Closed instance of `search_and_download_gate`: a query with an empty
title has overlap similarity 0 to the unrelated hit, which is below the
0.6 default, so the gate rejects and no file is created. -/
theorem search_and_download_gate_witness :
    (search_and_download false [entryUnrelated] DlOutcome.netFail "" "out.pdf" (6/10)
        fsEmpty).1.1 = false ∧
      (search_and_download false [entryUnrelated] DlOutcome.netFail "" "out.pdf" (6/10)
        fsEmpty).2.1 = fsEmpty ∧
      (search_and_download false [entryUnrelated] DlOutcome.netFail "" "out.pdf" (6/10)
        fsEmpty).2.2 = [Event.search ""] := by
  have hs : search_paper false [entryUnrelated] "" =
      some { arxiv_id := "2101.00001v1", title := "Unrelated Survey on Databases",
             pdf_url := "https://arxiv.org/pdf/2101.00001v1.pdf", authors := [],
             similarity := 0 } := rfl
  have hg := search_and_download_gate false [entryUnrelated] DlOutcome.netFail "" "out.pdf"
    (6/10) fsEmpty _ hs (by norm_num)
  exact ⟨hg.1, hg.2.2.1, hg.2.2.2⟩

/-- C10: the existing-file guard.  When the generated destination path
already exists, both `download_paper` and `download_paper_from_url`
return the failure "PDF already exists locally" immediately: the
filesystem is returned unchanged (the existing file in particular) and
no search, download, sleep or store-update event occurs. -/
theorem download_paper_existing_guard (env : DpEnv) (dl : DlOutcome)
    (overview : Option String) (root : String) (paper : PaperMetadata)
    (conference_name url : String) (fs : FS)
    (h : (fs (output_path_of root conference_name paper)).isSome = true) :
    download_paper env root paper conference_name fs =
        ((false, "PDF already exists locally"), fs, []) ∧
      download_paper_from_url dl overview root paper conference_name url fs =
        ((false, "PDF already exists locally"), fs, []) := by
  constructor
  · unfold download_paper
    dsimp only
    rw [if_pos h]
  · unfold download_paper_from_url
    dsimp only
    rw [if_pos h]

/-- Closed instance of `download_paper_existing_guard` on a filesystem
already holding the destination file. -/
theorem download_paper_existing_guard_witness :
    (fsExisting (output_path_of "data/conferences" "conf" paperW)).isSome = true ∧
      download_paper envNetFail "data/conferences" paperW "conf" fsExisting =
        ((false, "PDF already exists locally"), fsExisting, []) ∧
      download_paper_from_url DlOutcome.netFail none "data/conferences" paperW "conf"
        "http://x/y.pdf" fsExisting =
        ((false, "PDF already exists locally"), fsExisting, []) := by
  have h : (fsExisting (output_path_of "data/conferences" "conf" paperW)).isSome = true := by
    unfold fsExisting
    rw [if_pos rfl]
    rfl
  have hg := download_paper_existing_guard envNetFail DlOutcome.netFail none
    "data/conferences" paperW "conf" "http://x/y.pdf" fsExisting h
  exact ⟨h, hg.1, hg.2⟩

/-- C2: evaluation of the recovery pipeline at the spec's scenario-1
response (single-quoted keys and values, Python `None`, fenced in
markdown).  The claim says recovery returns
`{title: "Foo", authors: ["A","B"], overview: null}` via the
sanitize-then-parse strategy; the code in fact returns `None`: the
sanitizer rewrites only single-quoted *keys* (the pattern `'…':`), so the
values `'Foo'`, `'A'`, `'B'` stay single-quoted and every strategy's
`json.loads` fails. -/
theorem extract_json_safely_scenario1 : extract_json_safely scenario1Raw = none := by
  rfl

/-- C4 counterexample: a `title` of the wrong type (here JSON `null`) is
*not* replaced by the `"Untitled"` default — `str(None)` coerces it to
the string `"None"`. -/
theorem validate_title_wrong_type : (validate_paper_data [("title", Json.null)]).title ≠ "Untitled" := by
  have h : (validate_paper_data [("title", Json.null)]).title = "None" := rfl
  rw [h]
  decide

/-- C4 (amended): post-parse validation field by field.  `title` defaults
to `"Untitled"` only when *missing*; a present value of any type is
coerced through `str()` (so wrong-typed titles are stringified, not
defaulted).  `authors` is kept only when it is a list, with falsy entries
discarded, and a missing/non-list value yields the empty list, never an
error.  A missing, non-string or empty-string `overview` becomes
absent. -/
theorem validate_paper_data_fields (kvs : List (String × Json)) :
    (pyGet kvs "title" = none → (validate_paper_data kvs).title = "Untitled") ∧
    (∀ v, pyGet kvs "title" = some v → (validate_paper_data kvs).title = pyStr v) ∧
    (∀ l, pyGet kvs "authors" = some (Json.arr l) →
      (validate_paper_data kvs).authors = l.filter jsonTruthy) ∧
    ((∀ l, pyGet kvs "authors" ≠ some (Json.arr l)) →
      (validate_paper_data kvs).authors = []) ∧
    (pyGet kvs "overview" = none → (validate_paper_data kvs).overview = none) ∧
    (∀ v, pyGet kvs "overview" = some v → (∀ s, v ≠ Json.str s) →
      (validate_paper_data kvs).overview = none) ∧
    (∀ s, pyGet kvs "overview" = some (Json.str s) →
      (validate_paper_data kvs).overview = (if s = "" then none else some s)) := by
  refine ⟨?_, ?_, ?_, ?_, ?_, ?_, ?_⟩
  · intro h
    unfold validate_paper_data
    rw [h]
  · intro v h
    unfold validate_paper_data
    rw [h]
  · intro l h
    unfold validate_paper_data
    rw [h]
  · intro h
    unfold validate_paper_data
    dsimp only
    rcases ha : pyGet kvs "authors" with _ | v
    · rfl
    · rcases v with _ | b | n | q | s | l | o | _ | _ | _ <;> first
        | rfl
        | exact absurd ha (h _)
  · intro h
    unfold validate_paper_data
    rw [h]
    rfl
  · intro v h hv
    unfold validate_paper_data
    rw [h]
    dsimp only
    rcases v with _ | b | n | q | s | l | o | _ | _ | _ <;> first
      | rfl
      | exact absurd rfl (hv _)
  · intro s h
    unfold validate_paper_data
    rw [h]
    dsimp only
    by_cases hs : s = ""
    · subst hs
      rfl
    · rw [if_neg (by simpa using hs), if_neg hs]

/-- Closed instance of `validate_paper_data_fields` at an empty dict. -/
theorem validate_paper_data_fields_witness :
    (validate_paper_data []).title = "Untitled" ∧ (validate_paper_data []).authors = [] ∧
      (validate_paper_data []).overview = none :=
  ⟨(validate_paper_data_fields []).1 rfl,
    (validate_paper_data_fields []).2.2.2.1 (fun l h => by cases h),
    (validate_paper_data_fields []).2.2.2.2.1 rfl⟩

/-- C5: the recovery strategy cascade.  For every raw text,
`extract_json_safely` equals the left-biased chain of the four strategies
in source order — direct parse, sanitize-then-parse, balanced-brace
extraction, newline repair: a later strategy's result is consulted only
when every earlier one produced nothing, the first success wins, and when
all four fail the result is `none` (failure is a value, never an
exception).  In particular the source's empty/whitespace early-out
changes nothing: on such input every strategy fails anyway. -/
theorem extract_json_safely_cascade (s : String) :
    extract_json_safely s =
      ((strategy1 s).orElse (fun _ =>
        (strategy2 s).orElse (fun _ =>
          (strategy3 s).orElse (fun _ => strategy4 s)))) := by
  unfold extract_json_safely
  by_cases hg : pyStrip s = ""
  · rw [if_pos hg]
    have hws : ∀ c ∈ s.data, pyIsSpace c = true := by
      apply pyStripL_nil_all_ws
      have : (pyStrip s).data = pyStripL s.data := rfl
      rw [hg] at this
      exact this.symm
    have h1 : strategy1 s = none := jsonLoads_ws s hws
    have h2 : strategy2 s = none := by
      unfold strategy2
      rw [sanitize_json_string_ws s hws]
      exact jsonLoads_empty
    have h3 : strategy3 s = none := by
      unfold strategy3 findNestedBraces
      rw [findNested_ws _ s.data hws]
      rfl
    have h4 : strategy4 s = none := by
      unfold strategy4 fixNewlines
      rw [fixNewlinesL_ws _ s.data hws]
      exact jsonLoads_ws s hws
    rw [h1, h2, h3, h4]
    rfl
  · rw [if_neg hg]
    rcases h1 : strategy1 s with _ | v1
    · rcases h2 : strategy2 s with _ | v2
      · rcases h3 : strategy3 s with _ | v3
        · simp [Option.orElse]
        · simp [Option.orElse]
      · simp [Option.orElse]
    · simp [Option.orElse]

/-- C6: the extraction call bound.  With the probe failing,
`extract_from_image` fails with the unreachable-backend error and makes
no `analyze_image` call; otherwise the calls are exactly: the detailed
attempt alone when it succeeds or retry is off, and the detailed then the
simplified attempt otherwise.  There is never a third call. -/
theorem extract_from_image_call_bound (conn : Bool) (resp : Bool → AnalyzeOutcome)
    (source_path : String) (retry : Bool) :
    (extract_from_image false resp source_path retry).1.success = false ∧
      (extract_from_image false resp source_path retry).1.error =
        some "Cannot connect to Ollama. Is it running?" ∧
      (extract_from_image false resp source_path retry).2 = [] ∧
      (extract_from_image conn resp source_path retry).2 =
        (if conn then
          (if (attempt_extraction resp source_path false).1.success then [false]
           else if retry then [false, true] else [false])
         else []) ∧
      (extract_from_image conn resp source_path retry).2.length ≤ 2 := by
  have hoff : extract_from_image false resp source_path retry =
      ({ success := false, paper_metadata := none, raw_response := "",
         error := some "Cannot connect to Ollama. Is it running?" }, []) := by
    unfold extract_from_image
    rfl
  have hatt : ∀ us : Bool, (attempt_extraction resp source_path us).2 = [us] := by
    intro us
    unfold attempt_extraction
    rcases resp us with e | text
    · rfl
    · dsimp only
      rcases parse_response text source_path with _ | pm <;> rfl
  have hcalls : ∀ c : Bool, (extract_from_image c resp source_path retry).2 =
      (if c then
        (if (attempt_extraction resp source_path false).1.success then [false]
         else if retry then [false, true] else [false])
       else []) := by
    intro c
    rcases c with _ | _
    · rw [hoff, if_neg (by simp)]
    · unfold extract_from_image
      rcases hsucc : (attempt_extraction resp source_path false).1.success with _ | _ <;>
        rcases retry with _ | _ <;>
          simp [hsucc, hatt]
  refine ⟨?_, ?_, ?_, hcalls conn, ?_⟩
  · rw [hoff]
  · rw [hoff]
  · rw [hoff]
  · rw [hcalls conn]
    rcases conn with _ | _
    · simp
    · rw [if_pos (by simp)]
      split

      · simp
      · split <;> simp

/-- C7: local match acceptance.  For a strictly positive threshold,
`match_paper_to_pdf` returns a file iff the maximum similarity over all
search-string × file pairs reaches the threshold, and the returned file
is the first file in the caller's ordering attaining that maximum (ties
broken by first-encountered candidate; the list is never re-sorted);
otherwise it returns `none`. -/
theorem match_paper_to_pdf_accept (threshold : ℚ) (paper : PaperMetadata)
    (files : List SourceFile) (f : SourceFile) (hthr : 0 < threshold) :
    match_paper_to_pdf threshold paper files = some f ↔
      (threshold ≤ globalMaxScore paper files ∧
        files.find? (fun g => decide (globalMaxScore paper files ≤ fileMaxScore paper g)) =
          some f) := by
  unfold match_paper_to_pdf
  rcases files with _ | ⟨g, t⟩
  · simp only [List.isEmpty_nil, if_pos]
    constructor
    · intro h; cases h
    · rintro ⟨-, h⟩; cases h
  · rw [if_neg (by simp)]
    dsimp only
    rw [filesFold_eq paper (g :: t) (none, 0) (le_refl 0)]
    by_cases hG : (0:ℚ) < globalMaxScore paper (g :: t)
    · rw [if_pos hG]
      dsimp only
      by_cases hth : threshold ≤ globalMaxScore paper (g :: t)
      · rw [if_pos hth]
        simp only [hth, true_and]
      · rw [if_neg hth]
        constructor
        · intro h; cases h
        · rintro ⟨h, -⟩; exact absurd h hth
    · rw [if_neg hG]
      dsimp only
      have hG0 : globalMaxScore paper (g :: t) = 0 :=
        le_antisymm (not_lt.mp hG) (globalMaxScore_nonneg paper (g :: t))
      rw [if_neg (not_le.mpr hthr)]
      constructor
      · intro h; cases h
      · rintro ⟨h, -⟩
        rw [hG0] at h
        exact absurd h (not_le.mpr hthr)

/-- Closed instance of `match_paper_to_pdf_accept` at the default 0.6
threshold. -/
theorem match_paper_to_pdf_accept_witness :
    (0:ℚ) < 6/10 ∧
      (match_paper_to_pdf (6/10) paperAB [fileAB] = some fileAB ↔
        ((6:ℚ)/10 ≤ globalMaxScore paperAB [fileAB] ∧
          [fileAB].find? (fun g =>
            decide (globalMaxScore paperAB [fileAB] ≤ fileMaxScore paperAB g)) = some fileAB)) :=
  ⟨by norm_num, match_paper_to_pdf_accept (6/10) paperAB [fileAB] fileAB (by norm_num)⟩

/-- Helper for the counterexamples: a file whose stem equals the cleaned
title scores 1 and is matched. -/
theorem match_paper_ab : match_paper_to_pdf (6/10) paperAB [fileAB] = some fileAB := by
  unfold match_paper_to_pdf
  rw [if_neg (by simp)]
  dsimp only
  have hss : generate_search_strings paperAB = ["ab"] := rfl
  rw [hss]
  simp only [List.foldl_cons, List.foldl_nil]
  have harg : pyLower (pathStem fileAB.file_path) = "ab" := rfl
  rw [harg, calculate_similarity_self "ab"]
  dsimp only
  rw [if_pos (by norm_num : (0:ℚ) < 1)]
  rw [if_pos (by norm_num : (6:ℚ)/10 ≤ ((some fileAB, (1:ℚ)) : Option SourceFile × ℚ).2)]

/-- C8 counterexample: after the bulk matching loop the candidate object
has been mutated in place — its `pdf_found`/`pdf_path` fields changed —
so the candidate list is no longer the input list. -/
theorem match_all_papers_mutates :
    (match_all_papers (6/10) [paperAB] [fileAB]).2 ≠ [paperAB] := by
  unfold match_all_papers
  dsimp only
  rw [List.map_cons, List.map_nil, match_paper_ab]
  decide

/-- C8 (amended): the single-paper `match_paper_to_pdf` is a pure query
and mutates nothing, and the bulk loop `match_all_papers` leaves `title`,
`authors`, `overview` and `paper_id` of every candidate unchanged and
leaves unmatched candidates entirely unchanged — but it does mutate each
matched candidate in place, setting `pdf_found := true` and `pdf_path` to
the matched file's path (so candidates are not immutable through the bulk
stage). -/
theorem match_all_papers_frame (threshold : ℚ) (papers : List PaperMetadata)
    (files : List SourceFile) :
    List.Forall₂ (fun p q =>
      q.title = p.title ∧ q.authors = p.authors ∧ q.overview = p.overview ∧
        q.paper_id = p.paper_id ∧
        q = (match match_paper_to_pdf threshold p files with
             | some f => { p with pdf_found := true, pdf_path := some f.file_path }
             | none => p))
      papers (match_all_papers threshold papers files).2 := by
  unfold match_all_papers
  dsimp only
  induction papers with
  | nil => exact List.Forall₂.nil
  | cons p ps ih =>
    rw [List.map_cons]
    refine List.Forall₂.cons ?_ ih
    rcases hm : match_paper_to_pdf threshold p files with _ | f
    · exact ⟨rfl, rfl, rfl, rfl, rfl⟩
    · exact ⟨rfl, rfl, rfl, rfl, rfl⟩

/-- C9 counterexample: `score("", "")` is 1.0 (CPython's `ratio` of two
empty sequences), not 0, and a comparison of two empty strings alone does
cause a match to be accepted: a candidate with an empty cleaned title
against a file with an empty stem is matched at the default 0.6
threshold. -/
theorem empty_empty_match_accepted :
    calculate_similarity "" "" ≠ 0 ∧
      match_paper_to_pdf (6/10) paperEmptyTitle [fileEmptyPath] = some fileEmptyPath := by
  constructor
  · rw [calculate_similarity_self ""]
    norm_num
  · unfold match_paper_to_pdf
    rw [if_neg (by simp)]
    dsimp only
    have hss : generate_search_strings paperEmptyTitle = [""] := rfl
    rw [hss]
    simp only [List.foldl_cons, List.foldl_nil]
    have harg : pyLower (pathStem fileEmptyPath.file_path) = "" := rfl
    rw [harg, calculate_similarity_self ""]
    dsimp only
    rw [if_pos (by norm_num : (0:ℚ) < 1)]
    rw [if_pos (by norm_num :
      (6:ℚ)/10 ≤ ((some fileEmptyPath, (1:ℚ)) : Option SourceFile × ℚ).2)]

/-- C9 (amended): the similarity score contract.  `score(x, x) == 1.0`
for every string (the empty string included), `score` is total with
values in `[0, 1]` — but `score("", "")` is 1.0, not 0, so it is *not*
treated as 0 for matching purposes. -/
theorem similarity_score_contract :
    (∀ x : String, calculate_similarity x x = 1) ∧
      (∀ a b : String, 0 ≤ calculate_similarity a b ∧ calculate_similarity a b ≤ 1) ∧
      calculate_similarity "" "" = 1 :=
  ⟨calculate_similarity_self, calculate_similarity_bounds, calculate_similarity_self ""⟩

end ConfReader
